import Mathlib

/-!
# PE-Fund-Dashboard — verification of the cashflow-planning core

Shallow embedding of the cashflow-planning subsystem of the
PE-Fund-Dashboard repository:

* `cashflow_pipeline_db.py` — fund-status state machine
  (`VALID_TRANSITIONS`, `change_fund_status`, `force_change_fund_status`);
* `cashflow_db.py` — cashflow event store (`insert_cashflow`,
  `update_cashflow`, `bulk_insert_cashflows`);
* `cashflow_queries.py` — multi-currency portfolio aggregation
  (`get_portfolio_summary_cached`) and the actual-vs-forecast quarterly
  deviation table (`get_actual_vs_forecast_cached`);
* `cashflow_forecast.py` — the seven pacing models.

Monetary values are modelled as exact numbers: `ℚ` for the database layer
and for the pacing models that use only field operations, `ℝ` for the
three models that take fractional powers (`**` on floats).  Python's
`round(x, 2)` is modelled as round-half-away from the floor at 1/200
(`round` in Mathlib); the models differ only on exact ties, which none of
the statements below depend on.
-/

namespace PEFund

/-- Calendar date `(year, month, day)`, as produced by `datetime.date`. -/
structure Ymd where
  year : Nat
  month : Nat
  day : Nat
deriving DecidableEq, Repr

/-- The five cashflow event types admitted by the `cashflows` table
`CHECK` constraint in `ensure_cashflows_table`. -/
inductive CFKind where
  | capital_call
  | distribution
  | management_fee
  | carried_interest
  | clawback
deriving DecidableEq, Repr

/-- `OUTFLOW_TYPES` from `cashflow_queries.py`. -/
def OUTFLOW_TYPES : List CFKind :=
  [.capital_call, .management_fee, .carried_interest]

/-- `INFLOW_TYPES` from `cashflow_queries.py`. -/
def INFLOW_TYPES : List CFKind :=
  [.distribution, .clawback]

/-! ## Fund status state machine (`cashflow_pipeline_db.py`) -/

/-- The fixed adjacency table `VALID_TRANSITIONS` of
`cashflow_pipeline_db.py`, as an association list from current status to
the list of allowed target statuses. -/
def VALID_TRANSITIONS : List (String × List String) :=
  [ ("screening", ["due_diligence", "declined"]),
    ("due_diligence", ["negotiation", "declined"]),
    ("negotiation", ["committed", "declined"]),
    ("committed", ["active"]),
    ("active", ["harvesting"]),
    ("harvesting", ["closed"]),
    ("declined", []),
    ("closed", []) ]

/-- `VALID_TRANSITIONS.get(old_status, [])`. -/
def validTargets (s : String) : List String :=
  ((VALID_TRANSITIONS.find? (fun p => p.1 = s)).map Prod.snd).getD []

/-- One row of the `fund_status_history` table (timestamp column omitted:
it is filled by the database clock and never read by the functions under
verification). -/
structure HistoryRow where
  fund_id : Nat
  old_status : Option String
  new_status : String
  changed_by : String
  change_reason : String
deriving DecidableEq, Repr

/-- The slice of the database state touched by the status operations:
the `funds.status` column (nullable, keyed by `fund_id`) and the
append-only `fund_status_history` table. -/
structure PipelineDB where
  funds : List (Nat × Option String)
  history : List HistoryRow
deriving DecidableEq, Repr

/-- `SELECT status FROM funds WHERE fund_id = %s` followed by
`fetchone`: `none` when the fund does not exist, `some st` with the
(nullable) status column otherwise. -/
def lookupStatus (db : PipelineDB) (fund_id : Nat) : Option (Option String) :=
  (db.funds.find? (fun p => p.1 = fund_id)).map Prod.snd

/-- Python's `row[0] or 'active'`: `None` and the empty string are falsy
and fall back to `'active'`. -/
def statusOrActive (st : Option String) : String :=
  match st with
  | none => "active"
  | some s => if s = "" then "active" else s

/-- `UPDATE funds SET status = %s WHERE fund_id = %s`. -/
def setStatus (db : PipelineDB) (fund_id : Nat) (new_status : String) :
    List (Nat × Option String) :=
  db.funds.map (fun p => if p.1 = fund_id then (p.1, some new_status) else p)

/-- `change_fund_status` from `cashflow_pipeline_db.py`: validates the
transition against `VALID_TRANSITIONS`, raises `ValueError` (modelled as
`Except.error`, in which case the database state is unchanged — the
Python code raises before issuing any `UPDATE`/`INSERT`) for an unknown
fund or a disallowed transition, otherwise updates `funds.status` and
appends one `fund_status_history` row. -/
def change_fund_status (db : PipelineDB) (fund_id : Nat) (new_status : String)
    (changed_by : String := "system") (reason : String := "") :
    Except String PipelineDB :=
  match lookupStatus db fund_id with
  | none => .error ("Fund " ++ toString fund_id ++ " nicht gefunden")
  | some st =>
    let old_status := statusOrActive st
    let valid := validTargets old_status
    if new_status ∈ valid then
      .ok { funds := setStatus db fund_id new_status,
            history := db.history ++
              [⟨fund_id, some old_status, new_status, changed_by, reason⟩] }
    else
      .error ("Ungueltiger Uebergang: " ++ old_status ++ " -> " ++ new_status)

/-- `force_change_fund_status` from `cashflow_pipeline_db.py`: admin
override without transition validation.  An unknown fund raises; equal
old and new status returns early without touching the database; any
other pair updates the status and logs a history row. -/
def force_change_fund_status (db : PipelineDB) (fund_id : Nat)
    (new_status : String) (changed_by : String := "admin")
    (reason : String := "") : Except String PipelineDB :=
  match lookupStatus db fund_id with
  | none => .error ("Fund " ++ toString fund_id ++ " nicht gefunden")
  | some st =>
    let old_status := statusOrActive st
    if old_status = new_status then
      .ok db
    else
      .ok { funds := setStatus db fund_id new_status,
            history := db.history ++
              [⟨fund_id, some old_status, new_status, changed_by, reason⟩] }

/-- After `UPDATE funds SET status = T WHERE fund_id = fid`, the fund
that was found before is found with status `T`. -/
theorem find_map_setStatus (l : List (Nat × Option String)) (fid : Nat) (T : String)
    (h : (l.find? (fun p => p.1 = fid)).isSome) :
    ((l.map (fun p => if p.1 = fid then (p.1, some T) else p)).find?
      (fun p => p.1 = fid)) = some (fid, some T) := by
  induction l with
  | nil => simp at h
  | cons p ps ih =>
    by_cases hp : p.1 = fid
    · subst hp
      simp [List.find?_cons_of_pos]
    · rw [List.find?_cons_of_neg _ (by simp [hp])] at h
      simp only [List.map_cons, if_neg hp]
      rw [List.find?_cons_of_neg _ (by simp [hp])]
      exact ih h

/-- After `UPDATE funds SET status = T WHERE fund_id = fid`, the fund
that was found before is found with status `T`. -/
theorem lookupStatus_setStatus (db : PipelineDB) (fid : Nat) (T : String)
    (h : (lookupStatus db fid).isSome) (hist : List HistoryRow) :
    lookupStatus ⟨setStatus db fid T, hist⟩ fid = some (some T) := by
  unfold lookupStatus at h ⊢
  unfold setStatus
  rw [Option.isSome_map'] at h
  rw [find_map_setStatus db.funds fid T h]
  rfl

/-- Setting a status leaves the history untouched and appends are what
they are; helper equations for `change_fund_status` on a found fund. -/
theorem change_fund_status_found (db : PipelineDB) (fid : Nat) (st : Option String)
    (T cb rsn : String) (h : lookupStatus db fid = some st) :
    change_fund_status db fid T cb rsn =
      (if T ∈ validTargets (statusOrActive st) then
        .ok { funds := setStatus db fid T,
              history := db.history ++
                [⟨fid, some (statusOrActive st), T, cb, rsn⟩] }
      else
        .error ("Ungueltiger Uebergang: " ++ statusOrActive st ++ " -> " ++ T)) := by
  unfold change_fund_status
  rw [h]

/-- C1: for a fund whose current status reads as `S`, a guarded
transition to a target `T` outside the `VALID_TRANSITIONS` entry for `S`
raises a descriptive error and (the call returning `Except.error` without
producing a new state) leaves the fund's status and the history table
unchanged; for `T` inside the entry the call succeeds, the fund's status
becomes `T`, and exactly one history row with `old_status = S`,
`new_status = T` is appended. -/
theorem change_fund_status_guarded_correct (db : PipelineDB) (fid : Nat)
    (st : Option String) (T cb rsn : String)
    (h : lookupStatus db fid = some st) :
    (T ∉ validTargets (statusOrActive st) →
      ∃ msg, change_fund_status db fid T cb rsn = .error msg) ∧
    (T ∈ validTargets (statusOrActive st) →
      ∃ db', change_fund_status db fid T cb rsn = .ok db' ∧
        lookupStatus db' fid = some (some T) ∧
        db'.history = db.history ++
          [⟨fid, some (statusOrActive st), T, cb, rsn⟩]) := by
  constructor
  · intro hmem
    refine ⟨"Ungueltiger Uebergang: " ++ statusOrActive st ++ " -> " ++ T, ?_⟩
    rw [change_fund_status_found db fid st T cb rsn h, if_neg hmem]
  · intro hmem
    refine ⟨{ funds := setStatus db fid T,
              history := db.history ++
                [⟨fid, some (statusOrActive st), T, cb, rsn⟩] }, ?_, ?_, rfl⟩
    · rw [change_fund_status_found db fid st T cb rsn h, if_pos hmem]
    · exact lookupStatus_setStatus db fid T (by rw [h]; rfl) _

/-- Witness for C1 at a concrete database: fund 1 has status `active`;
the guarded transition to `closed` errors, the one to `harvesting`
succeeds and logs exactly one `active -> harvesting` row. -/
theorem change_fund_status_guarded_correct_witness :
    (∃ msg, change_fund_status ⟨[(1, some "active")], []⟩ 1 "closed"
        "system" "" = .error msg) ∧
    (∃ db', change_fund_status ⟨[(1, some "active")], []⟩ 1 "harvesting"
        "system" "" = .ok db' ∧
      lookupStatus db' 1 = some (some "harvesting") ∧
      db'.history = ([] : List HistoryRow) ++
        [⟨1, some "active", "harvesting", "system", ""⟩]) :=
  ⟨(change_fund_status_guarded_correct ⟨[(1, some "active")], []⟩ 1
      (some "active") "closed" "system" "" (by rfl)).1 (by decide),
   (change_fund_status_guarded_correct ⟨[(1, some "active")], []⟩ 1
      (some "active") "harvesting" "system" "" (by rfl)).2 (by decide)⟩

/-- C2: for a fund whose current status reads as `S` and any target
`T ≠ S`, the forced transition succeeds without consulting the adjacency
table, sets the fund's status to `T` and appends one history row logging
`S` to `T` with actor and reason. -/
theorem force_change_fund_status_any_pair (db : PipelineDB) (fid : Nat)
    (st : Option String) (T cb rsn : String)
    (h : lookupStatus db fid = some st)
    (hne : statusOrActive st ≠ T) :
    ∃ db', force_change_fund_status db fid T cb rsn = .ok db' ∧
      lookupStatus db' fid = some (some T) ∧
      db'.history = db.history ++
        [⟨fid, some (statusOrActive st), T, cb, rsn⟩] := by
  refine ⟨{ funds := setStatus db fid T,
            history := db.history ++
              [⟨fid, some (statusOrActive st), T, cb, rsn⟩] }, ?_, ?_, rfl⟩
  · unfold force_change_fund_status
    rw [h]
    simp only [if_neg hne]
  · exact lookupStatus_setStatus db fid T (by rw [h]; rfl) _

/-- Witness for C2: the forced transition `active -> closed` (which the
adjacency table forbids) succeeds and logs `active -> closed`. -/
theorem force_change_fund_status_any_pair_witness :
    ∃ db', force_change_fund_status ⟨[(7, some "active")], []⟩ 7 "closed"
        "admin" "fix" = .ok db' ∧
      lookupStatus db' 7 = some (some "closed") ∧
      db'.history = ([] : List HistoryRow) ++
        [⟨7, some "active", "closed", "admin", "fix"⟩] :=
  force_change_fund_status_any_pair ⟨[(7, some "active")], []⟩ 7
    (some "active") "closed" "admin" "fix" (by rfl) (by decide)

/-- C10: calling the forced transition with `new_status` equal to the
fund's current status returns `Except.ok` with the database unchanged —
no error, no status change, no history row. -/
theorem force_change_fund_status_same_noop (db : PipelineDB) (fid : Nat)
    (st : Option String) (T cb rsn : String)
    (h : lookupStatus db fid = some st)
    (heq : statusOrActive st = T) :
    force_change_fund_status db fid T cb rsn = .ok db := by
  unfold force_change_fund_status
  rw [h]
  simp only [if_pos heq]

/-- Witness for C10: forcing `active -> active` on fund 3 is a silent
no-op returning the database unchanged. -/
theorem force_change_fund_status_same_noop_witness :
    force_change_fund_status ⟨[(3, some "active")], []⟩ 3 "active"
      "admin" "" = .ok ⟨[(3, some "active")], []⟩ :=
  force_change_fund_status_same_noop ⟨[(3, some "active")], []⟩ 3
    (some "active") "active" "admin" "" (by rfl) (by decide)

/-! ## Cashflow event store (`cashflow_db.py`) -/

/-- One row of the `cashflows` table from `ensure_cashflows_table`
(`created_at` omitted: filled by the database clock, never read or
written by the CRUD functions). -/
structure DbRow where
  cashflow_id : Nat
  fund_id : Nat
  date : Ymd
  type : CFKind
  amount : ℚ
  currency : String
  is_actual : Bool
  scenario_name : String
  notes : Option String
deriving DecidableEq, Repr

/-- The natural key `(fund_id, date, type, scenario_name)` declared
`UNIQUE` on the `cashflows` table. -/
def keyOf (r : DbRow) : Nat × Ymd × CFKind × String :=
  (r.fund_id, r.date, r.type, r.scenario_name)

/-- The `cashflows` table together with the `SERIAL` id counter. -/
structure Store where
  rows : List DbRow
  nextId : Nat
deriving DecidableEq, Repr

/-- Number of stored rows carrying a given natural key. -/
def countKey (s : Store) (k : Nat × Ymd × CFKind × String) : Nat :=
  (s.rows.filter (fun r => keyOf r = k)).length

/-- The `UNIQUE(fund_id, date, type, scenario_name)` schema constraint:
at most one row per natural key. -/
def KeyUnique (s : Store) : Prop :=
  ∀ k, countKey s k ≤ 1

/-- The non-key payload of a cashflow write: exactly the columns that
`ON CONFLICT ... DO UPDATE` overwrites. -/
structure Payload where
  amount : ℚ
  currency : String
  is_actual : Bool
  notes : Option String
deriving DecidableEq, Repr

/-- The `DO UPDATE SET` clause: overwrites exactly the non-key columns
`amount`, `currency`, `is_actual`, `notes` with the excluded row's
values. -/
def overwrite (p : Payload) (r : DbRow) : DbRow :=
  { r with amount := p.amount, currency := p.currency,
           is_actual := p.is_actual, notes := p.notes }

/-- The `INSERT ... ON CONFLICT (fund_id, date, type, scenario_name) DO
UPDATE SET amount/currency/is_actual/notes = EXCLUDED...` statement
shared verbatim by `insert_cashflow` and `bulk_insert_cashflows`:
if a row with the key exists it is overwritten in place, otherwise a new
row with the next serial id is appended. -/
def upsertRow (s : Store) (fid : Nat) (d : Ymd) (ty : CFKind) (p : Payload)
    (scen : String) : Store :=
  let k : Nat × Ymd × CFKind × String := (fid, d, ty, scen)
  if s.rows.any (fun r => keyOf r = k) then
    { rows := s.rows.map (fun r => if keyOf r = k then overwrite p r else r),
      nextId := s.nextId }
  else
    { rows := s.rows ++
        [⟨s.nextId, fid, d, ty, p.amount, p.currency, p.is_actual, scen, p.notes⟩],
      nextId := s.nextId + 1 }

/-- `insert_cashflow` from `cashflow_db.py` (the returned
`cashflow_id` is not modelled; the claims only concern the stored rows). -/
def insert_cashflow (s : Store) (fund_id : Nat) (date : Ymd) (cf_type : CFKind)
    (amount : ℚ) (currency : String := "EUR") (is_actual : Bool := true)
    (scenario_name : String := "base") (notes : Option String := none) : Store :=
  upsertRow s fund_id date cf_type ⟨amount, currency, is_actual, notes⟩ scenario_name

/-- One element of the `cashflows_list` argument of
`bulk_insert_cashflows`. -/
structure CashflowDict where
  fund_id : Nat
  date : Ymd
  type : CFKind
  amount : ℚ
  currency : String
  is_actual : Bool
  scenario_name : String
  notes : Option String
deriving DecidableEq, Repr

/-- `bulk_insert_cashflows` from `cashflow_db.py`: executes the same
upsert statement once per list element (the returned count is the list
length and is not modelled). -/
def bulk_insert_cashflows (s : Store) (cashflows_list : List CashflowDict) : Store :=
  cashflows_list.foldl
    (fun acc cf => upsertRow acc cf.fund_id cf.date cf.type
      ⟨cf.amount, cf.currency, cf.is_actual, cf.notes⟩ cf.scenario_name) s

/-- The `kwargs` of `update_cashflow`: `none` models an absent keyword
argument (column untouched), `some v` an update of that column to `v`. -/
structure UpdateArgs where
  date : Option Ymd := none
  type : Option CFKind := none
  amount : Option ℚ := none
  currency : Option String := none
  is_actual : Option Bool := none
  scenario_name : Option String := none
  notes : Option (Option String) := none
deriving Repr

/-- `update_cashflow` from `cashflow_db.py`: `UPDATE cashflows SET ...
WHERE cashflow_id = %s` with only the provided columns in the SET
clause. -/
def update_cashflow (s : Store) (cashflow_id : Nat) (u : UpdateArgs) : Store :=
  { rows := s.rows.map (fun r =>
      if r.cashflow_id = cashflow_id then
        { r with date := u.date.getD r.date,
                 type := u.type.getD r.type,
                 amount := u.amount.getD r.amount,
                 currency := u.currency.getD r.currency,
                 is_actual := u.is_actual.getD r.is_actual,
                 scenario_name := u.scenario_name.getD r.scenario_name,
                 notes := u.notes.getD r.notes }
      else r),
    nextId := s.nextId }

/-- Overwriting the payload never changes the natural key. -/
theorem keyOf_overwrite (p : Payload) (r : DbRow) : keyOf (overwrite p r) = keyOf r :=
  rfl

/-- The `DO UPDATE` branch does not change how many rows carry any given
key. -/
theorem filter_key_map_overwrite (l : List DbRow) (k k' : Nat × Ymd × CFKind × String)
    (p : Payload) :
    ((l.map (fun r => if keyOf r = k then overwrite p r else r)).filter
      (fun r => keyOf r = k')).length =
    (l.filter (fun r => keyOf r = k')).length := by
  induction l with
  | nil => rfl
  | cons r rs ih =>
    have hk : keyOf (if keyOf r = k then overwrite p r else r) = keyOf r := by
      by_cases h : keyOf r = k
      · simp [h, keyOf_overwrite]
      · simp [h]
    simp only [List.map_cons, List.filter_cons, hk]
    by_cases h' : keyOf r = k'
    · simp [h', ih]
    · simp [h', ih]

/-- Specification of the shared upsert statement: on a store satisfying
the schema's key-uniqueness constraint it leaves exactly one row with
the written key, that row carries the written payload, and uniqueness is
preserved. -/
theorem upsertRow_spec (s : Store) (hu : KeyUnique s) (fid : Nat) (d : Ymd)
    (ty : CFKind) (p : Payload) (scen : String) :
    countKey (upsertRow s fid d ty p scen) (fid, d, ty, scen) = 1 ∧
    KeyUnique (upsertRow s fid d ty p scen) ∧
    (∀ r ∈ (upsertRow s fid d ty p scen).rows, keyOf r = (fid, d, ty, scen) →
      r.amount = p.amount ∧ r.currency = p.currency ∧
      r.is_actual = p.is_actual ∧ r.notes = p.notes) := by
  set k : Nat × Ymd × CFKind × String := (fid, d, ty, scen) with hkdef
  unfold upsertRow
  by_cases hex : s.rows.any (fun r => keyOf r = k)
  · simp only [hex, decide_True, if_true, if_pos]
    have hcnt : ∀ k', countKey
        ⟨s.rows.map (fun r => if keyOf r = k then overwrite p r else r), s.nextId⟩ k' =
        countKey s k' := by
      intro k'
      unfold countKey
      exact filter_key_map_overwrite s.rows k k' p
    have hone : countKey s k = 1 := by
      rcases List.any_eq_true.mp hex with ⟨r, hr, hkr⟩
      have h1 : 1 ≤ countKey s k := by
        unfold countKey
        have : r ∈ s.rows.filter (fun r => keyOf r = k) := by
          rw [List.mem_filter]
          exact ⟨hr, hkr⟩
        exact List.length_pos.mpr (List.ne_nil_of_mem this)
      exact le_antisymm (hu k) h1
    refine ⟨by rw [hcnt k, hone], fun k' => by rw [hcnt k']; exact hu k', ?_⟩
    intro r hr hk
    rcases List.mem_map.mp hr with ⟨r₀, hr₀, hfr⟩
    by_cases h0 : keyOf r₀ = k
    · rw [if_pos h0] at hfr
      subst hfr
      exact ⟨rfl, rfl, rfl, rfl⟩
    · rw [if_neg h0] at hfr
      subst hfr
      exact absurd hk h0
  · simp only [hex, if_neg, Bool.false_eq_true, not_false_iff]
    have hzero : countKey s k = 0 := by
      unfold countKey
      rw [List.length_eq_zero, List.filter_eq_nil_iff]
      intro r hr
      by_contra h
      exact hex (List.any_eq_true.mpr ⟨r, hr, by simpa using h⟩)
    constructor
    · unfold countKey
      simp only [List.filter_append]
      rw [List.length_append]
      have : (s.rows.filter (fun r => keyOf r = k)).length = 0 := hzero
      rw [this]
      simp [keyOf, hkdef]
    constructor
    · intro k'
      unfold countKey
      simp only [List.filter_append, List.length_append]
      by_cases hkk : k' = k
      · subst hkk
        have : (s.rows.filter (fun r => keyOf r = k)).length = 0 := hzero
        rw [this]
        simp [keyOf]
      · have h2 : ((([⟨s.nextId, fid, d, ty, p.amount, p.currency, p.is_actual,
            scen, p.notes⟩] : List DbRow)).filter (fun r => keyOf r = k')).length = 0 := by
          simp only [List.filter, List.length]
          have : keyOf (⟨s.nextId, fid, d, ty, p.amount, p.currency, p.is_actual,
              scen, p.notes⟩ : DbRow) = k := rfl
          rw [this]
          simp [Ne.symm hkk]
        rw [h2]
        have := hu k'
        unfold countKey at this
        omega
    · intro r hr hk
      rcases List.mem_append.mp hr with h | h
      · exfalso
        exact hex (List.any_eq_true.mpr ⟨r, h, by simpa using hk⟩)
      · rcases List.mem_singleton.mp h with rfl
        exact ⟨rfl, rfl, rfl, rfl⟩

/-- A single write of one event, through either entry point named by the
claim: directly via `insert_cashflow`, or as a one-element
`bulk_insert_cashflows` call. -/
def writeOne (viaBulk : Bool) (s : Store) (cf : CashflowDict) : Store :=
  if viaBulk then bulk_insert_cashflows s [cf]
  else insert_cashflow s cf.fund_id cf.date cf.type cf.amount cf.currency
    cf.is_actual cf.scenario_name cf.notes

/-- Both entry points execute the same upsert statement. -/
theorem writeOne_eq_upsert (viaBulk : Bool) (s : Store) (cf : CashflowDict) :
    writeOne viaBulk s cf = upsertRow s cf.fund_id cf.date cf.type
      ⟨cf.amount, cf.currency, cf.is_actual, cf.notes⟩ cf.scenario_name := by
  cases viaBulk <;> rfl

/-- C3: on a store satisfying the schema's key-uniqueness constraint,
two successive writes of an event with the same natural key
`(fund_id, date, type, scenario_name)` — each via `insert_cashflow` or
via `bulk_insert_cashflows` — leave exactly one row with that key, and
that row carries the amount, currency, is_actual and notes of the second
write. -/
theorem upsert_idempotent_latest_wins (s : Store) (hu : KeyUnique s)
    (fid : Nat) (d : Ymd) (ty : CFKind) (scen : String) (p₁ p₂ : Payload)
    (b₁ b₂ : Bool) :
    countKey (writeOne b₂ (writeOne b₁ s
        ⟨fid, d, ty, p₁.amount, p₁.currency, p₁.is_actual, scen, p₁.notes⟩)
        ⟨fid, d, ty, p₂.amount, p₂.currency, p₂.is_actual, scen, p₂.notes⟩)
      (fid, d, ty, scen) = 1 ∧
    ∀ r ∈ (writeOne b₂ (writeOne b₁ s
        ⟨fid, d, ty, p₁.amount, p₁.currency, p₁.is_actual, scen, p₁.notes⟩)
        ⟨fid, d, ty, p₂.amount, p₂.currency, p₂.is_actual, scen, p₂.notes⟩).rows,
      keyOf r = (fid, d, ty, scen) →
      r.amount = p₂.amount ∧ r.currency = p₂.currency ∧
      r.is_actual = p₂.is_actual ∧ r.notes = p₂.notes := by
  rw [writeOne_eq_upsert, writeOne_eq_upsert]
  have h₁ := upsertRow_spec s hu fid d ty ⟨p₁.amount, p₁.currency, p₁.is_actual, p₁.notes⟩ scen
  have h₂ := upsertRow_spec _ h₁.2.1 fid d ty
    ⟨p₂.amount, p₂.currency, p₂.is_actual, p₂.notes⟩ scen
  exact ⟨h₂.1, h₂.2.2⟩

/-- Witness for C3: on the empty store, inserting amount 100 then bulk
re-inserting the same key with amount 250 leaves one row with the key,
carrying the data of the second write. -/
theorem upsert_idempotent_latest_wins_witness :
    countKey (writeOne true (writeOne false ⟨[], 0⟩
        ⟨1, ⟨2024, 3, 31⟩, .capital_call, 100, "EUR", true, "base", none⟩)
        ⟨1, ⟨2024, 3, 31⟩, .capital_call, 250, "USD", false, "base", some "x"⟩)
      (1, ⟨2024, 3, 31⟩, .capital_call, "base") = 1 ∧
    ∀ r ∈ (writeOne true (writeOne false ⟨[], 0⟩
        ⟨1, ⟨2024, 3, 31⟩, .capital_call, 100, "EUR", true, "base", none⟩)
        ⟨1, ⟨2024, 3, 31⟩, .capital_call, 250, "USD", false, "base", some "x"⟩).rows,
      keyOf r = (1, ⟨2024, 3, 31⟩, .capital_call, "base") →
      r.amount = 250 ∧ r.currency = "USD" ∧
      r.is_actual = false ∧ r.notes = some "x" :=
  upsert_idempotent_latest_wins ⟨[], 0⟩
    (fun k => by simp [countKey, List.filter]) 1 ⟨2024, 3, 31⟩ .capital_call
    "base" ⟨100, "EUR", true, none⟩ ⟨250, "USD", false, some "x"⟩ false true

/-! ## C4: non-negativity of stored amounts -/

/-- One write operation against the event store, covering the three
write entry points of `cashflow_db.py` named by the claim. -/
inductive WriteOp where
  | ins (fund_id : Nat) (date : Ymd) (cf_type : CFKind) (amount : ℚ)
      (currency : String) (is_actual : Bool) (scenario_name : String)
      (notes : Option String)
  | upd (cashflow_id : Nat) (u : UpdateArgs)
  | blk (l : List CashflowDict)

/-- Executes one write operation. -/
def applyOp (s : Store) : WriteOp → Store
  | .ins fid d ty a c act scen n => insert_cashflow s fid d ty a c act scen n
  | .upd cid u => update_cashflow s cid u
  | .blk l => bulk_insert_cashflows s l

/-- All amount arguments fed to the operation are non-negative. -/
def NonNegOp : WriteOp → Prop
  | .ins _ _ _ a _ _ _ _ => 0 ≤ a
  | .upd _ u => ∀ a, u.amount = some a → 0 ≤ a
  | .blk l => ∀ cf ∈ l, 0 ≤ cf.amount

/-- Counterexample to C4 as stated: `insert_cashflow` performs no sign
validation (and the schema has no CHECK on `amount`), so a single write
with amount −1 leaves a stored event with a negative amount. -/
theorem stored_amount_negative_after_write :
    ∃ r ∈ (insert_cashflow ⟨[], 0⟩ 1 ⟨2024, 1, 31⟩ .capital_call (-1)
      "EUR" true "base" none).rows, r.amount < 0 := by
  refine ⟨⟨0, 1, ⟨2024, 1, 31⟩, .capital_call, -1, "EUR", true, "base", none⟩, ?_, by norm_num⟩
  decide

/-- Upsert preserves non-negativity of stored amounts when the written
amount is non-negative. -/
theorem upsertRow_nonneg (s : Store) (fid : Nat) (d : Ymd) (ty : CFKind)
    (p : Payload) (scen : String) (h0 : ∀ r ∈ s.rows, 0 ≤ r.amount)
    (hp : 0 ≤ p.amount) :
    ∀ r ∈ (upsertRow s fid d ty p scen).rows, 0 ≤ r.amount := by
  intro r hr
  unfold upsertRow at hr
  by_cases hex : s.rows.any (fun r => keyOf r = (fid, d, ty, scen))
  · simp only [hex, if_true] at hr
    rcases List.mem_map.mp hr with ⟨r₀, hr₀, hfr⟩
    by_cases h : keyOf r₀ = (fid, d, ty, scen)
    · rw [if_pos h] at hfr
      subst hfr
      exact hp
    · rw [if_neg h] at hfr
      subst hfr
      exact h0 r₀ hr₀
  · simp only [hex, if_false, Bool.false_eq_true, if_neg, not_false_iff] at hr
    rcases List.mem_append.mp hr with h | h
    · exact h0 r h
    · rcases List.mem_singleton.mp h with rfl
      exact hp

/-- Bulk insert preserves non-negativity when every listed amount is
non-negative. -/
theorem bulk_insert_nonneg (l : List CashflowDict) (s : Store)
    (h0 : ∀ r ∈ s.rows, 0 ≤ r.amount) (hl : ∀ cf ∈ l, 0 ≤ cf.amount) :
    ∀ r ∈ (bulk_insert_cashflows s l).rows, 0 ≤ r.amount := by
  induction l generalizing s with
  | nil => exact h0
  | cons cf cfs ih =>
    exact ih _ (upsertRow_nonneg s cf.fund_id cf.date cf.type
        ⟨cf.amount, cf.currency, cf.is_actual, cf.notes⟩ cf.scenario_name h0
        (hl cf (List.mem_cons_self cf cfs)))
      (fun c hc => hl c (List.mem_cons_of_mem cf hc))

/-- Update preserves non-negativity when any provided amount is
non-negative. -/
theorem update_cashflow_nonneg (s : Store) (cid : Nat) (u : UpdateArgs)
    (h0 : ∀ r ∈ s.rows, 0 ≤ r.amount)
    (hu : ∀ a, u.amount = some a → 0 ≤ a) :
    ∀ r ∈ (update_cashflow s cid u).rows, 0 ≤ r.amount := by
  intro r hr
  unfold update_cashflow at hr
  rcases List.mem_map.mp hr with ⟨r₀, hr₀, hfr⟩
  by_cases h : r₀.cashflow_id = cid
  · rw [if_pos h] at hfr
    subst hfr
    rcases ha : u.amount with _ | a
    · simpa [ha] using h0 r₀ hr₀
    · simpa [ha] using hu a ha
  · rw [if_neg h] at hfr
    subst hfr
    exact h0 r₀ hr₀

/-- Amended C4: the write layer itself performs no sign validation, but
non-negativity IS an invariant of every write sequence whose amount
inputs are non-negative: starting from a store with only non-negative
amounts, after any sequence of `insert_cashflow`, `update_cashflow`,
`bulk_insert_cashflows` calls whose amount arguments are all ≥ 0, every
stored event has amount ≥ 0. -/
theorem nonneg_invariant_of_nonneg_writes (ops : List WriteOp) (s : Store)
    (h0 : ∀ r ∈ s.rows, 0 ≤ r.amount) (hops : ∀ op ∈ ops, NonNegOp op) :
    ∀ r ∈ (ops.foldl applyOp s).rows, 0 ≤ r.amount := by
  induction ops generalizing s with
  | nil => exact h0
  | cons op rest ih =>
    have hstep : ∀ r ∈ (applyOp s op).rows, 0 ≤ r.amount := by
      have hop := hops op (List.mem_cons_self op rest)
      cases op with
      | ins fid d ty a c act scen n =>
        exact upsertRow_nonneg s fid d ty ⟨a, c, act, n⟩ scen h0 hop
      | upd cid u => exact update_cashflow_nonneg s cid u h0 hop
      | blk l => exact bulk_insert_nonneg l s h0 hop
    exact ih _ hstep (fun o ho => hops o (List.mem_cons_of_mem op ho))

/-- Witness for the amended C4: a concrete three-operation write
sequence (insert, update of the amount, bulk insert) with non-negative
amounts leaves only non-negative stored amounts. -/
theorem nonneg_invariant_of_nonneg_writes_witness :
    List.Forall (fun r => 0 ≤ r.amount)
      (([.ins 1 ⟨2024, 3, 31⟩ .capital_call 100 "EUR" true "base" none,
         .upd 0 { amount := some 5 },
         .blk [⟨2, ⟨2024, 6, 30⟩, .distribution, 7, "EUR", true, "base", none⟩]] :
        List WriteOp).foldl applyOp ⟨[], 0⟩).rows :=
  List.forall_iff_forall_mem.mpr
  (nonneg_invariant_of_nonneg_writes _ ⟨[], 0⟩ (by simp)
    (by
      intro op hop
      simp only [List.mem_cons, List.not_mem_nil, or_false] at hop
      rcases hop with rfl | rfl | rfl
      · norm_num [NonNegOp]
      · intro a ha
        cases ha
        norm_num
      · intro cf hcf
        rcases List.mem_singleton.mp hcf with rfl
        norm_num))

/-! ## Multi-currency portfolio aggregation (`cashflow_queries.py`)

The exchange-rate resolver `get_exchange_rate_with_inverse` is imported
by `cashflow_queries.py` from `cashflow_db`; only its call sites are in
the sources under verification, so it is passed here as an abstract
function `rate : from_ccy → to_ccy → as_of_date → Option ℚ` (`none`
models an unresolvable rate).  The claims below only constrain its
output, never its definition. -/

/-- Python's `value or default` on a nullable string column: `None` and
the empty string fall back to the default. -/
def strOr (o : Option String) (d : String) : String :=
  match o with
  | none => d
  | some s => if s = "" then d else s

/-- The fund fields read by `get_fund_commitment_info_cached` that the
portfolio summary consumes. -/
structure FundInfo where
  fund_id : Nat
  fund_name : String
  currency : Option String
  commitment_amount : ℚ
  unfunded_amount : ℚ
deriving DecidableEq, Repr

/-- One row of the converted frame produced by
`get_cashflows_in_base_currency_cached`: the original columns that the
downstream aggregations read, plus `original_currency`, `fx_rate` and
`amount_base` (`none` = no exchange rate resolved). -/
structure ConvRow where
  date : Ymd
  type : CFKind
  amount : ℚ
  is_actual : Bool
  original_currency : String
  fx_rate : Option ℚ
  amount_base : Option ℚ
deriving DecidableEq, Repr

/-- `get_cashflows_in_base_currency_cached` from `cashflow_queries.py`:
same currency ⇒ `fx_rate = 1`, `amount_base = amount`; otherwise the
rate is resolved per event date and `amount_base = amount * rate` when a
rate exists, else both stay `none`. -/
def get_cashflows_in_base_currency_cached
    (rate : String → String → Ymd → Option ℚ) (base_currency : String)
    (f : FundInfo) (rows : List DbRow) : List ConvRow :=
  if rows = [] then []
  else
    let fund_currency := strOr f.currency "EUR"
    if fund_currency = base_currency then
      rows.map (fun r =>
        ⟨r.date, r.type, r.amount, r.is_actual, fund_currency, some 1, some r.amount⟩)
    else
      rows.map (fun r =>
        let rt := rate fund_currency base_currency r.date
        ⟨r.date, r.type, r.amount, r.is_actual, fund_currency, rt,
          rt.map (fun x => r.amount * x)⟩)

/-- A row of the concatenated multi-fund frame: the converted row tagged
with the fund's name. -/
structure MultiRow where
  fund_name : String
  row : ConvRow
deriving DecidableEq, Repr

/-- `get_cashflows_multi_fund_base_currency_cached`: converts each
selected fund's events and concatenates the non-empty frames, adding the
`fund_name` column. -/
def get_cashflows_multi_fund_base_currency_cached
    (rate : String → String → Ymd → Option ℚ) (base_currency : String)
    (portfolio : List (FundInfo × List DbRow)) : List MultiRow :=
  portfolio.flatMap (fun fr =>
    (get_cashflows_in_base_currency_cached rate base_currency fr.1 fr.2).map
      (fun c => ⟨fr.1.fund_name, c⟩))

/-- Keep-first deduplication, as `DataFrame.drop_duplicates` (default
`keep='first'`). -/
def firstDedup {α : Type} [DecidableEq α] (l : List α) : List α :=
  l.foldl (fun acc a => if a ∈ acc then acc else acc ++ [a]) []

/-- The `(fund_name, original_currency)` pairs of rows whose rate was
missing, deduplicated keeping first occurrences — the iteration basis of
the `fx_warnings` loop in `get_portfolio_summary_cached`. -/
def missingFxPairs (multi : List MultiRow) : List (String × String) :=
  firstDedup ((multi.filter (fun r => r.row.amount_base = none)).map
    (fun r => (r.fund_name, r.row.original_currency)))

/-- The warning string `f"{fund_name} ({ccy}→{base})"`. -/
def mkFxWarning (base_currency : String) (p : String × String) : String :=
  p.1 ++ " (" ++ p.2 ++ "→" ++ base_currency ++ ")"

/-- Sum of `amount_base` over the convertible rows of the given types —
`valid_df.loc[valid_df['type'].isin(tys), 'amount_base'].sum()` where
`valid_df = multi_df.dropna(subset=['amount_base'])`. -/
def baseAmountSum (multi : List MultiRow) (tys : List CFKind) : ℚ :=
  (multi.filterMap (fun r =>
    if r.row.type ∈ tys then r.row.amount_base else none)).sum

/-- The dictionary returned by `get_portfolio_summary_cached`. -/
structure PortfolioSummary where
  total_commitment : ℚ
  total_called : ℚ
  total_distributed : ℚ
  total_unfunded : ℚ
  net_cashflow : ℚ
  portfolio_dpi : ℚ
  num_funds : Nat
  fx_warnings : List String
deriving Repr

/-- `get_portfolio_summary_cached` from `cashflow_queries.py`.  `today`
models `date.today()` used for converting the static commitment and
unfunded balances.  (The `not multi_df.empty and 'amount_base' in
multi_df.columns` guards are pandas artifacts: on an empty frame the
warning list and both event totals are empty/zero in either branch.) -/
def get_portfolio_summary_cached (rate : String → String → Ymd → Option ℚ)
    (base_currency : String) (today : Ymd)
    (portfolio : List (FundInfo × List DbRow)) : PortfolioSummary :=
  let multi := get_cashflows_multi_fund_base_currency_cached rate base_currency portfolio
  let fx_warnings := (missingFxPairs multi).map (mkFxWarning base_currency)
  let total_called := baseAmountSum multi OUTFLOW_TYPES
  let total_distributed := baseAmountSum multi INFLOW_TYPES
  let commitments := portfolio.map (fun fr =>
    let fund_ccy := strOr fr.1.currency "EUR"
    if fund_ccy = base_currency then
      (fr.1.commitment_amount, fr.1.unfunded_amount)
    else
      match rate fund_ccy base_currency today with
      | some x => (fr.1.commitment_amount * x, fr.1.unfunded_amount * x)
      | none => (0, 0))
  { total_commitment := (commitments.map Prod.fst).sum,
    total_called := total_called,
    total_distributed := total_distributed,
    total_unfunded := (commitments.map Prod.snd).sum,
    net_cashflow := total_distributed - total_called,
    portfolio_dpi :=
      if 0 < total_called then total_distributed / total_called else 0,
    num_funds := portfolio.length,
    fx_warnings := fx_warnings }

/-- The fold underlying `firstDedup` keeps the accumulator duplicate
free and accumulates exactly the members. -/
theorem firstDedup_fold_spec {α : Type} [DecidableEq α] (l acc : List α)
    (h : acc.Nodup) :
    (l.foldl (fun acc a => if a ∈ acc then acc else acc ++ [a]) acc).Nodup ∧
    (∀ x, x ∈ l.foldl (fun acc a => if a ∈ acc then acc else acc ++ [a]) acc ↔
      x ∈ acc ∨ x ∈ l) := by
  induction l generalizing acc with
  | nil => simpa using h
  | cons a l ih =>
    have hstep : ((if a ∈ acc then acc else acc ++ [a]) : List α).Nodup := by
      by_cases hm : a ∈ acc
      · simpa [hm] using h
      · simp [hm, List.nodup_append, h]
    rcases ih _ hstep with ⟨h1, h2⟩
    refine ⟨h1, fun x => ?_⟩
    rw [List.foldl_cons, h2 x]
    by_cases hm : a ∈ acc
    · simp only [if_pos hm, List.mem_cons]
      constructor
      · rintro h
        exact h.elim (fun h => .inl h) (fun h => .inr (.inr h))
      · rintro (h | rfl | h)
        · exact .inl h
        · exact .inl hm
        · exact .inr h
    · simp only [if_neg hm, List.mem_append, List.mem_singleton, List.mem_cons]
      tauto

/-- `firstDedup` has no duplicates. -/
theorem firstDedup_nodup {α : Type} [DecidableEq α] (l : List α) :
    (firstDedup l).Nodup :=
  (firstDedup_fold_spec l [] List.nodup_nil).1

/-- `firstDedup` keeps exactly the members. -/
theorem mem_firstDedup {α : Type} [DecidableEq α] (l : List α) (x : α) :
    x ∈ firstDedup l ↔ x ∈ l := by
  rw [firstDedup, (firstDedup_fold_spec l [] List.nodup_nil).2 x]
  simp

/-- In a duplicate-free list a member is counted exactly once. -/
theorem countP_eq_one_of_nodup_mem {α : Type} [DecidableEq α] {l : List α}
    {a : α} (hd : l.Nodup) (h : a ∈ l) :
    l.countP (fun x => x = a) = 1 := by
  induction l with
  | nil => cases h
  | cons b t ih =>
    rcases List.nodup_cons.mp hd with ⟨hbt, ht⟩
    rcases List.mem_cons.mp h with rfl | hat
    · rw [List.countP_cons]
      have h0 : t.countP (fun x => decide (x = a)) = 0 := by
        rw [List.countP_eq_zero]
        intro x hx
        simp only [decide_eq_true_eq]
        rintro rfl
        exact hbt hx
      simp [h0]
    · rw [List.countP_cons]
      have hba : ¬(b = a) := by
        rintro rfl
        exact hbt hat
      simp [hba, ih ht hat]

/-- A member occurs exactly once after keep-first deduplication. -/
theorem count_firstDedup_of_mem {α : Type} [DecidableEq α] (l : List α)
    (x : α) (h : x ∈ l) : (firstDedup l).countP (fun y => y = x) = 1 :=
  countP_eq_one_of_nodup_mem (firstDedup_nodup l) ((mem_firstDedup l x).mpr h)

/-- Every converted row of a fund whose currency differs from the base
currency and for which no rate resolves carries `amount_base = none` and
the fund's currency. -/
theorem conv_all_missing (rate : String → String → Ymd → Option ℚ)
    (base : String) (F : FundInfo) (rows : List DbRow)
    (hccy : strOr F.currency "EUR" ≠ base)
    (hnone : ∀ r ∈ rows, rate (strOr F.currency "EUR") base r.date = none) :
    ∀ c ∈ get_cashflows_in_base_currency_cached rate base F rows,
      c.amount_base = none ∧ c.original_currency = strOr F.currency "EUR" := by
  intro c hc
  unfold get_cashflows_in_base_currency_cached at hc
  by_cases hr : rows = []
  · simp [hr] at hc
  · simp only [if_neg hr, if_neg hccy] at hc
    rcases List.mem_map.mp hc with ⟨r, hrm, rfl⟩
    simp [hnone r hrm]

/-- The multi-fund frame splits along the portfolio list. -/
theorem multi_append (rate : String → String → Ymd → Option ℚ) (base : String)
    (p₁ p₂ : List (FundInfo × List DbRow)) :
    get_cashflows_multi_fund_base_currency_cached rate base (p₁ ++ p₂) =
      get_cashflows_multi_fund_base_currency_cached rate base p₁ ++
      get_cashflows_multi_fund_base_currency_cached rate base p₂ := by
  unfold get_cashflows_multi_fund_base_currency_cached
  induction p₁ with
  | nil => rfl
  | cons a l ih => simp only [List.flatMap_cons, List.cons_append,
      List.append_assoc, ih]

/-- Rows with `amount_base = none` contribute nothing to the summed
base amounts. -/
theorem baseAmountSum_of_missing (multi : List MultiRow) (tys : List CFKind)
    (h : ∀ r ∈ multi, r.row.amount_base = none) :
    baseAmountSum multi tys = 0 := by
  unfold baseAmountSum
  have : multi.filterMap (fun r =>
      if r.row.type ∈ tys then r.row.amount_base else none) = [] := by
    rw [List.filterMap_eq_nil_iff]
    intro r hr
    rw [h r hr]
    split <;> rfl
  rw [this]
  rfl

/-- `baseAmountSum` is additive along concatenation. -/
theorem baseAmountSum_append (m₁ m₂ : List MultiRow) (tys : List CFKind) :
    baseAmountSum (m₁ ++ m₂) tys = baseAmountSum m₁ tys + baseAmountSum m₂ tys := by
  unfold baseAmountSum
  rw [List.filterMap_append, List.sum_append]

/-- C5: if no exchange rate resolves for any event of fund `F` (whose
currency differs from the base currency), then `F`'s events contribute
exactly 0 to the portfolio summary's `total_called` and
`total_distributed` (the totals equal those of the portfolio without
`F`), and the `(fund_name, currency)` pair of `F` occurs exactly once in
the deduplicated missing-rate pair list from which `fx_warnings` is
produced — one warning entry per fund-and-currency pair, regardless of
how many events lacked a rate. -/
theorem portfolio_fx_exclusion (rate : String → String → Ymd → Option ℚ)
    (base : String) (today : Ymd) (pre post : List (FundInfo × List DbRow))
    (F : FundInfo) (rows : List DbRow)
    (hrows : rows ≠ [])
    (hccy : strOr F.currency "EUR" ≠ base)
    (hnone : ∀ r ∈ rows, rate (strOr F.currency "EUR") base r.date = none) :
    (get_portfolio_summary_cached rate base today (pre ++ (F, rows) :: post)).total_called =
      (get_portfolio_summary_cached rate base today (pre ++ post)).total_called ∧
    (get_portfolio_summary_cached rate base today (pre ++ (F, rows) :: post)).total_distributed =
      (get_portfolio_summary_cached rate base today (pre ++ post)).total_distributed ∧
    (missingFxPairs (get_cashflows_multi_fund_base_currency_cached rate base
        (pre ++ (F, rows) :: post))).countP (fun p => p = (F.fund_name, strOr F.currency "EUR")) = 1 ∧
    (get_portfolio_summary_cached rate base today (pre ++ (F, rows) :: post)).fx_warnings =
      (missingFxPairs (get_cashflows_multi_fund_base_currency_cached rate base
        (pre ++ (F, rows) :: post))).map (mkFxWarning base) := by
  have hsplit : get_cashflows_multi_fund_base_currency_cached rate base
      (pre ++ (F, rows) :: post) =
      get_cashflows_multi_fund_base_currency_cached rate base pre ++
      ((get_cashflows_in_base_currency_cached rate base F rows).map
        (fun c => ⟨F.fund_name, c⟩) ++
        get_cashflows_multi_fund_base_currency_cached rate base post) := by
    rw [multi_append]
    congr 1
  have hFmiss : ∀ m ∈ (get_cashflows_in_base_currency_cached rate base F rows).map
      (fun c => (⟨F.fund_name, c⟩ : MultiRow)),
      m.row.amount_base = none ∧ m.row.original_currency = strOr F.currency "EUR" := by
    intro m hm
    rcases List.mem_map.mp hm with ⟨c, hc, rfl⟩
    exact conv_all_missing rate base F rows hccy hnone c hc
  have htotals : ∀ tys,
      baseAmountSum (get_cashflows_multi_fund_base_currency_cached rate base
        (pre ++ (F, rows) :: post)) tys =
      baseAmountSum (get_cashflows_multi_fund_base_currency_cached rate base
        (pre ++ post)) tys := by
    intro tys
    rw [hsplit, baseAmountSum_append, baseAmountSum_append, multi_append,
      baseAmountSum_append,
      baseAmountSum_of_missing _ tys (fun m hm => (hFmiss m hm).1)]
    ring
  have hconvne : (get_cashflows_in_base_currency_cached rate base F rows) ≠ [] := by
    unfold get_cashflows_in_base_currency_cached
    rw [if_neg hrows, if_neg hccy]
    simpa using hrows
  rcases List.exists_mem_of_ne_nil _ hconvne with ⟨c, hc⟩
  have hcmiss := conv_all_missing rate base F rows hccy hnone c hc
  have hmem : (F.fund_name, strOr F.currency "EUR") ∈
      ((get_cashflows_multi_fund_base_currency_cached rate base
        (pre ++ (F, rows) :: post)).filter
        (fun r => r.row.amount_base = none)).map
        (fun r => (r.fund_name, r.row.original_currency)) := by
    refine List.mem_map.mpr ⟨⟨F.fund_name, c⟩, ?_, by rw [hcmiss.2]⟩
    rw [List.mem_filter]
    constructor
    · rw [hsplit]
      exact List.mem_append_right _
        (List.mem_append_left _ (List.mem_map.mpr ⟨c, hc, rfl⟩))
    · simp [hcmiss.1]
  refine ⟨?_, ?_, ?_, ?_⟩
  · simpa [get_portfolio_summary_cached] using htotals OUTFLOW_TYPES
  · simpa [get_portfolio_summary_cached] using htotals INFLOW_TYPES
  · exact count_firstDedup_of_mem _ _ hmem
  · simp [get_portfolio_summary_cached]

/-- Witness for C5: a two-fund portfolio in which the USD fund has two
events and no USD→EUR rate resolves; its pair warns exactly once and the
totals equal those of the portfolio without it. -/
theorem portfolio_fx_exclusion_witness :
    (get_portfolio_summary_cached (fun _ _ _ => none) "EUR" ⟨2025, 1, 1⟩
        ([] ++ (⟨2, "Beta", some "USD", 50, 10⟩,
          [⟨0, 2, ⟨2024, 3, 31⟩, .capital_call, 40, "USD", true, "base", none⟩,
           ⟨1, 2, ⟨2024, 6, 30⟩, .distribution, 9, "USD", true, "base", none⟩]) ::
          [(⟨1, "Alpha", some "EUR", 100, 20⟩,
            [⟨2, 1, ⟨2024, 3, 31⟩, .capital_call, 30, "EUR", true, "base", none⟩])])).total_called =
      (get_portfolio_summary_cached (fun _ _ _ => none) "EUR" ⟨2025, 1, 1⟩
        ([] ++ [(⟨1, "Alpha", some "EUR", 100, 20⟩,
            [⟨2, 1, ⟨2024, 3, 31⟩, .capital_call, 30, "EUR", true, "base", none⟩])])).total_called ∧
    (get_portfolio_summary_cached (fun _ _ _ => none) "EUR" ⟨2025, 1, 1⟩
        ([] ++ (⟨2, "Beta", some "USD", 50, 10⟩,
          [⟨0, 2, ⟨2024, 3, 31⟩, .capital_call, 40, "USD", true, "base", none⟩,
           ⟨1, 2, ⟨2024, 6, 30⟩, .distribution, 9, "USD", true, "base", none⟩]) ::
          [(⟨1, "Alpha", some "EUR", 100, 20⟩,
            [⟨2, 1, ⟨2024, 3, 31⟩, .capital_call, 30, "EUR", true, "base", none⟩])])).total_distributed =
      (get_portfolio_summary_cached (fun _ _ _ => none) "EUR" ⟨2025, 1, 1⟩
        ([] ++ [(⟨1, "Alpha", some "EUR", 100, 20⟩,
            [⟨2, 1, ⟨2024, 3, 31⟩, .capital_call, 30, "EUR", true, "base", none⟩])])).total_distributed ∧
    (missingFxPairs (get_cashflows_multi_fund_base_currency_cached
        (fun _ _ _ => none) "EUR"
        ([] ++ (⟨2, "Beta", some "USD", 50, 10⟩,
          [⟨0, 2, ⟨2024, 3, 31⟩, .capital_call, 40, "USD", true, "base", none⟩,
           ⟨1, 2, ⟨2024, 6, 30⟩, .distribution, 9, "USD", true, "base", none⟩]) ::
          [(⟨1, "Alpha", some "EUR", 100, 20⟩,
            [⟨2, 1, ⟨2024, 3, 31⟩, .capital_call, 30, "EUR", true, "base", none⟩])]))).countP (fun p => p = ("Beta", strOr (some "USD") "EUR")) = 1 ∧
    (get_portfolio_summary_cached (fun _ _ _ => none) "EUR" ⟨2025, 1, 1⟩
        ([] ++ (⟨2, "Beta", some "USD", 50, 10⟩,
          [⟨0, 2, ⟨2024, 3, 31⟩, .capital_call, 40, "USD", true, "base", none⟩,
           ⟨1, 2, ⟨2024, 6, 30⟩, .distribution, 9, "USD", true, "base", none⟩]) ::
          [(⟨1, "Alpha", some "EUR", 100, 20⟩,
            [⟨2, 1, ⟨2024, 3, 31⟩, .capital_call, 30, "EUR", true, "base", none⟩])])).fx_warnings =
      (missingFxPairs (get_cashflows_multi_fund_base_currency_cached
        (fun _ _ _ => none) "EUR"
        ([] ++ (⟨2, "Beta", some "USD", 50, 10⟩,
          [⟨0, 2, ⟨2024, 3, 31⟩, .capital_call, 40, "USD", true, "base", none⟩,
           ⟨1, 2, ⟨2024, 6, 30⟩, .distribution, 9, "USD", true, "base", none⟩]) ::
          [(⟨1, "Alpha", some "EUR", 100, 20⟩,
            [⟨2, 1, ⟨2024, 3, 31⟩, .capital_call, 30, "EUR", true, "base", none⟩])]))).map
        (mkFxWarning "EUR") :=
  portfolio_fx_exclusion (fun _ _ _ => none) "EUR" ⟨2025, 1, 1⟩ []
    [(⟨1, "Alpha", some "EUR", 100, 20⟩,
      [⟨2, 1, ⟨2024, 3, 31⟩, .capital_call, 30, "EUR", true, "base", none⟩])]
    ⟨2, "Beta", some "USD", 50, 10⟩
    [⟨0, 2, ⟨2024, 3, 31⟩, .capital_call, 40, "USD", true, "base", none⟩,
     ⟨1, 2, ⟨2024, 6, 30⟩, .distribution, 9, "USD", true, "base", none⟩]
    (by decide) (by decide) (fun r _ => rfl)

/-! ## Actual vs. forecast quarterly deviation (`cashflow_queries.py`) -/

/-- A single-fund event as consumed by `get_actual_vs_forecast_cached`
(the columns it reads: date, type, amount, is_actual). -/
structure SEvent where
  date : Ymd
  type : CFKind
  amount : ℚ
  is_actual : Bool
deriving DecidableEq, Repr

/-- The `signed_amount` column: outflow types contribute negatively,
inflow types positively. -/
def signedAmount (e : SEvent) : ℚ :=
  if e.type ∈ OUTFLOW_TYPES then -e.amount else e.amount

/-- `date.dt.to_period('Q')`: the calendar quarter of a date, encoded as
`year * 4 + quarter_index` so that the numeric order coincides with the
lexicographic order of the `"YYYYQn"` period labels. -/
def periodKey (d : Ymd) : Nat :=
  d.year * 4 + (d.month - 1) / 3

/-- Insertion into an ascending duplicate-free list, keeping it
ascending and duplicate free. -/
def insertKey (x : Nat) : List Nat → List Nat
  | [] => [x]
  | y :: ys =>
    if x < y then x :: y :: ys
    else if x = y then y :: ys
    else y :: insertKey x ys

/-- The ascending duplicate-free list of values — the key order produced
by `groupby` (which sorts group keys) and by `sort_values`. -/
def sortDedup (l : List Nat) : List Nat :=
  l.foldr insertKey []

/-- One row of the per-partition quarterly tables built by the inner
`_periodic` helper of `get_actual_vs_forecast_cached`. -/
structure PerRow where
  period : Nat
  calls : ℚ
  dists : ℚ
  net : ℚ
deriving DecidableEq, Repr

/-- The aggregation of one quarter group: negative, positive and total
signed amounts of the partition's events inside quarter `p`. -/
def perRowOf (sub : List SEvent) (p : Nat) : PerRow :=
  let xs := (sub.filter (fun e => periodKey e.date = p)).map signedAmount
  ⟨p, (xs.filter (fun x => x < 0)).sum, (xs.filter (fun x => 0 < x)).sum, xs.sum⟩

/-- The inner `_periodic` helper: group the partition's events by
calendar quarter (keys sorted ascending, as `groupby` does) and
aggregate each group. -/
def periodicQ (sub : List SEvent) : List PerRow :=
  (sortDedup (sub.map (fun e => periodKey e.date))).map (perRowOf sub)

/-- One row of the returned `periodic_deviation` table (the four columns
selected at the end: period, net_actual, net_forecast, deviation). -/
structure DevRow where
  period : Nat
  net_actual : ℚ
  net_forecast : ℚ
  deviation : ℚ
deriving DecidableEq, Repr

/-- One row of the outer merge: looks the quarter up on each side,
`fillna(0)` for the missing side, `deviation = net_actual -
net_forecast`. -/
def mergedRow (actual_per forecast_per : List PerRow) (p : Nat) : DevRow :=
  let na := ((actual_per.find? (fun r => r.period = p)).map PerRow.net).getD 0
  let nf := ((forecast_per.find? (fun r => r.period = p)).map PerRow.net).getD 0
  ⟨p, na, nf, na - nf⟩

/-- The `periodic_deviation` component of the dictionary returned by
`get_actual_vs_forecast_cached` (the cumulative-curve and metric
components are not consumed by the claim): splits the events by
`is_actual`, builds the two quarterly tables, and — only when both are
non-empty — outer-merges them on the period, filling the missing side
with 0 and computing `deviation = net_actual - net_forecast`, sorted by
period. -/
def get_actual_vs_forecast_periodic_deviation (evts : List SEvent) : List DevRow :=
  let actual_per := periodicQ (evts.filter (fun e => e.is_actual))
  let forecast_per := periodicQ (evts.filter (fun e => !e.is_actual))
  if actual_per = [] ∨ forecast_per = [] then []
  else
    (sortDedup (actual_per.map PerRow.period ++ forecast_per.map PerRow.period)).map
      (mergedRow actual_per forecast_per)

/-- The net signed amount of a partition inside one quarter (0 when the
partition has no event in that quarter). -/
def netInQuarter (sub : List SEvent) (p : Nat) : ℚ :=
  ((sub.filter (fun e => periodKey e.date = p)).map signedAmount).sum

/-- Membership after insertion. -/
theorem mem_insertKey (x z : Nat) (l : List Nat) :
    z ∈ insertKey x l ↔ z = x ∨ z ∈ l := by
  induction l with
  | nil => simp [insertKey]
  | cons y ys ih =>
    unfold insertKey
    by_cases h1 : x < y
    · simp [h1]
    · by_cases h2 : x = y
      · rw [if_neg h1, if_pos h2]
        subst h2
        simp only [List.mem_cons]
        tauto
      · rw [if_neg h1, if_neg h2]
        simp only [List.mem_cons, ih]
        tauto

/-- Insertion preserves strict ascending sortedness. -/
theorem sorted_insertKey (x : Nat) (l : List Nat)
    (h : l.Sorted (· < ·)) : (insertKey x l).Sorted (· < ·) := by
  induction l with
  | nil => simp [insertKey]
  | cons y ys ih =>
    rcases List.sorted_cons.mp h with ⟨hy, hys⟩
    unfold insertKey
    by_cases h1 : x < y
    · rw [if_pos h1, List.sorted_cons]
      refine ⟨?_, h⟩
      intro b hb
      rcases List.mem_cons.mp hb with rfl | hb
      · exact h1
      · exact h1.trans (hy b hb)
    · by_cases h2 : x = y
      · rw [if_neg h1, if_pos h2]
        exact h
      · rw [if_neg h1, if_neg h2, List.sorted_cons]
        refine ⟨?_, ih hys⟩
        intro b hb
        rcases (mem_insertKey x b ys).mp hb with rfl | hb
        · omega
        · exact hy b hb

/-- `sortDedup` sorts strictly ascending. -/
theorem sorted_sortDedup (l : List Nat) : (sortDedup l).Sorted (· < ·) := by
  induction l with
  | nil => simp [sortDedup]
  | cons a t ih => exact sorted_insertKey a _ ih

/-- `sortDedup` has no duplicates. -/
theorem nodup_sortDedup (l : List Nat) : (sortDedup l).Nodup :=
  (sorted_sortDedup l).nodup

/-- `sortDedup` keeps exactly the members. -/
theorem mem_sortDedup (l : List Nat) (x : Nat) : x ∈ sortDedup l ↔ x ∈ l := by
  induction l with
  | nil => simp [sortDedup]
  | cons a t ih =>
    show x ∈ insertKey a (sortDedup t) ↔ _
    rw [mem_insertKey, ih, List.mem_cons]

/-- The period column of a built row is its key. -/
theorem perRowOf_period (sub : List SEvent) (p : Nat) :
    (perRowOf sub p).period = p :=
  rfl

/-- `find?` on the mapped group rows returns the row of the key when the
key is present. -/
theorem find_map_perRowOf (sub : List SEvent) (p : Nat) (keys : List Nat)
    (hk : p ∈ keys) :
    (keys.map (perRowOf sub)).find? (fun r => r.period = p) =
      some (perRowOf sub p) := by
  induction keys with
  | nil => cases hk
  | cons k ks ih =>
    by_cases hkp : k = p
    · subst hkp
      rw [List.map_cons]
      rw [List.find?_cons_of_pos _ (by simp [perRowOf_period])]
    · rw [List.map_cons]
      rw [List.find?_cons_of_neg _ (by simp [perRowOf_period, hkp])]
      have hk' : p ∈ ks := by
        rcases List.mem_cons.mp hk with h | h
        · exact absurd h.symm hkp
        · exact h
      exact ih hk'

/-- Looking up a quarter in a per-partition table yields the direct net
sum of that partition in that quarter — also when the quarter is absent
(the `fillna(0)` case). -/
theorem periodic_lookup (sub : List SEvent) (p : Nat) :
    (((periodicQ sub).find? (fun r => r.period = p)).map PerRow.net).getD 0 =
      netInQuarter sub p := by
  unfold periodicQ
  by_cases hp : p ∈ sortDedup (sub.map (fun e => periodKey e.date))
  · rw [find_map_perRowOf sub p _ hp]
    rfl
  · have hfind : ((sortDedup (sub.map (fun e => periodKey e.date))).map
        (perRowOf sub)).find? (fun r => r.period = p) = none := by
      rw [List.find?_eq_none]
      intro r hr
      rcases List.mem_map.mp hr with ⟨k, hk, rfl⟩
      simp only [perRowOf_period, decide_eq_true_eq]
      rintro rfl
      exact hp hk
    rw [hfind]
    have hnil : sub.filter (fun e => periodKey e.date = p) = [] := by
      rw [List.filter_eq_nil_iff]
      intro e he
      simp only [decide_eq_true_eq]
      intro hep
      exact hp ((mem_sortDedup _ _).mpr (List.mem_map.mpr ⟨e, he, hep⟩))
    unfold netInQuarter
    rw [hnil]
    rfl

/-- A non-empty partition yields a non-empty quarterly table. -/
theorem periodicQ_ne_nil (sub : List SEvent) (h : sub ≠ []) :
    periodicQ sub ≠ [] := by
  unfold periodicQ
  rcases List.exists_mem_of_ne_nil sub h with ⟨e, he⟩
  have : periodKey e.date ∈ sortDedup (sub.map (fun e => periodKey e.date)) :=
    (mem_sortDedup _ _).mpr (List.mem_map.mpr ⟨e, he, rfl⟩)
  intro hnil
  rw [List.map_eq_nil_iff] at hnil
  rw [hnil] at this
  cases this

/-- The period column of a quarterly table is exactly the sorted
deduplicated quarter-key list of its partition. -/
theorem periodicQ_periods (sub : List SEvent) :
    (periodicQ sub).map PerRow.period =
      sortDedup (sub.map (fun e => periodKey e.date)) := by
  unfold periodicQ
  rw [List.map_map]
  have : (PerRow.period ∘ perRowOf sub) = id := by
    funext p
    rfl
  rw [this, List.map_id]

/-- Counterexample to C6 as stated: an event set consisting of one
actual event only.  Its quarter (2024Q1, key 8096) is present in the
actual partition, yet the deviation table is empty — the code skips the
outer join entirely when either partition is empty. -/
theorem deviation_table_lone_partition_counterexample :
    (∃ e ∈ ([⟨⟨2024, 3, 31⟩, .capital_call, 5, true⟩] : List SEvent),
      e.is_actual = true ∧ periodKey e.date = 8096) ∧
    get_actual_vs_forecast_periodic_deviation
      [⟨⟨2024, 3, 31⟩, .capital_call, 5, true⟩] = [] := by
  constructor
  · exact ⟨⟨⟨2024, 3, 31⟩, .capital_call, 5, true⟩, by decide, by decide, by decide⟩
  · decide

/-- Amended C6: provided both partitions are non-empty (with an empty
partition the code returns an empty deviation table), the deviation
table has one row per calendar quarter present in either the actual or
the forecast partition, the side missing in a quarter counts as 0, and
every row satisfies `net_actual` = that quarter's actual net,
`net_forecast` = that quarter's forecast net, and `deviation =
net_actual - net_forecast`. -/
theorem deviation_table_outer_join (evts : List SEvent)
    (ha : evts.filter (fun e => e.is_actual) ≠ [])
    (hf : evts.filter (fun e => !e.is_actual) ≠ []) :
    ((get_actual_vs_forecast_periodic_deviation evts).map DevRow.period).Nodup ∧
    (∀ p, p ∈ (get_actual_vs_forecast_periodic_deviation evts).map DevRow.period ↔
      ((∃ e ∈ evts, e.is_actual = true ∧ periodKey e.date = p) ∨
       (∃ e ∈ evts, e.is_actual = false ∧ periodKey e.date = p))) ∧
    (∀ row ∈ get_actual_vs_forecast_periodic_deviation evts,
      row.net_actual = netInQuarter (evts.filter (fun e => e.is_actual)) row.period ∧
      row.net_forecast = netInQuarter (evts.filter (fun e => !e.is_actual)) row.period ∧
      row.deviation = row.net_actual - row.net_forecast) := by
  have hcond : ¬(periodicQ (evts.filter (fun e => e.is_actual)) = [] ∨
      periodicQ (evts.filter (fun e => !e.is_actual)) = []) := by
    rintro (h | h)
    · exact periodicQ_ne_nil _ ha h
    · exact periodicQ_ne_nil _ hf h
  have hdef : get_actual_vs_forecast_periodic_deviation evts =
      (sortDedup ((periodicQ (evts.filter (fun e => e.is_actual))).map PerRow.period ++
        (periodicQ (evts.filter (fun e => !e.is_actual))).map PerRow.period)).map
        (mergedRow (periodicQ (evts.filter (fun e => e.is_actual)))
          (periodicQ (evts.filter (fun e => !e.is_actual)))) := by
    unfold get_actual_vs_forecast_periodic_deviation
    rw [if_neg hcond]
  have hperiods : (get_actual_vs_forecast_periodic_deviation evts).map DevRow.period =
      sortDedup ((periodicQ (evts.filter (fun e => e.is_actual))).map PerRow.period ++
        (periodicQ (evts.filter (fun e => !e.is_actual))).map PerRow.period) := by
    rw [hdef, List.map_map]
    have : (DevRow.period ∘ mergedRow (periodicQ (evts.filter (fun e => e.is_actual)))
        (periodicQ (evts.filter (fun e => !e.is_actual)))) = id := by
      funext p
      rfl
    rw [this, List.map_id]
  refine ⟨?_, ?_, ?_⟩
  · rw [hperiods]
    exact nodup_sortDedup _
  · intro p
    rw [hperiods, mem_sortDedup, List.mem_append, periodicQ_periods, periodicQ_periods,
      mem_sortDedup, mem_sortDedup]
    constructor
    · rintro (h | h)
      · rcases List.mem_map.mp h with ⟨e, he, rfl⟩
        rcases List.mem_filter.mp he with ⟨hee, hact⟩
        exact .inl ⟨e, hee, by simpa using hact, rfl⟩
      · rcases List.mem_map.mp h with ⟨e, he, rfl⟩
        rcases List.mem_filter.mp he with ⟨hee, hact⟩
        exact .inr ⟨e, hee, by simpa using hact, rfl⟩
    · rintro (⟨e, hee, hact, rfl⟩ | ⟨e, hee, hact, rfl⟩)
      · exact .inl (List.mem_map.mpr ⟨e, List.mem_filter.mpr ⟨hee, by simp [hact]⟩, rfl⟩)
      · exact .inr (List.mem_map.mpr ⟨e, List.mem_filter.mpr ⟨hee, by simp [hact]⟩, rfl⟩)
  · intro row hrow
    rw [hdef] at hrow
    rcases List.mem_map.mp hrow with ⟨p, _, rfl⟩
    refine ⟨?_, ?_, rfl⟩
    · exact periodic_lookup _ p
    · exact periodic_lookup _ p

/-- Witness for the amended C6 at a concrete event set: one actual event
in 2024Q1 and one forecast event in 2024Q2. -/
theorem deviation_table_outer_join_witness :
    ((get_actual_vs_forecast_periodic_deviation
      [⟨⟨2024, 2, 15⟩, .capital_call, 5, true⟩,
       ⟨⟨2024, 5, 20⟩, .distribution, 8, false⟩]).map DevRow.period).Nodup ∧
    (∀ p, p ∈ (get_actual_vs_forecast_periodic_deviation
      [⟨⟨2024, 2, 15⟩, .capital_call, 5, true⟩,
       ⟨⟨2024, 5, 20⟩, .distribution, 8, false⟩]).map DevRow.period ↔
      ((∃ e ∈ ([⟨⟨2024, 2, 15⟩, .capital_call, 5, true⟩,
        ⟨⟨2024, 5, 20⟩, .distribution, 8, false⟩] : List SEvent),
          e.is_actual = true ∧ periodKey e.date = p) ∨
       (∃ e ∈ ([⟨⟨2024, 2, 15⟩, .capital_call, 5, true⟩,
        ⟨⟨2024, 5, 20⟩, .distribution, 8, false⟩] : List SEvent),
          e.is_actual = false ∧ periodKey e.date = p))) ∧
    (∀ row ∈ get_actual_vs_forecast_periodic_deviation
      [⟨⟨2024, 2, 15⟩, .capital_call, 5, true⟩,
       ⟨⟨2024, 5, 20⟩, .distribution, 8, false⟩],
      row.net_actual = netInQuarter (([⟨⟨2024, 2, 15⟩, .capital_call, 5, true⟩,
        ⟨⟨2024, 5, 20⟩, .distribution, 8, false⟩] : List SEvent).filter
          (fun e => e.is_actual)) row.period ∧
      row.net_forecast = netInQuarter (([⟨⟨2024, 2, 15⟩, .capital_call, 5, true⟩,
        ⟨⟨2024, 5, 20⟩, .distribution, 8, false⟩] : List SEvent).filter
          (fun e => !e.is_actual)) row.period ∧
      row.deviation = row.net_actual - row.net_forecast) :=
  deviation_table_outer_join
    [⟨⟨2024, 2, 15⟩, .capital_call, 5, true⟩,
     ⟨⟨2024, 5, 20⟩, .distribution, 8, false⟩]
    (by decide) (by decide)

/-! ## Pacing models (`cashflow_forecast.py`)

The models that use only field operations (Cambridge Quantile, Linear,
Manual Pacing, Historical Average) are modelled over `ℚ`; the three
models that take fractional float powers (Takahashi-Alexander,
Driessen-Lin-Phalippou, Ljungqvist-Richardson) are modelled over `ℝ`
with `Real.rpow` for `**`. -/

/-- One forecast event `{date, type, amount}`. -/
structure FcEvent (α : Type) where
  date : Ymd
  type : CFKind
  amount : α
deriving DecidableEq, Repr

/-- Python's `round(x, 2)`.  Modelled with Mathlib's `round` (half away
from the floor); Python uses banker's rounding, which differs only on
exact ties at 1/200 — no statement below depends on tie direction. -/
def round2 {α : Type} [LinearOrderedField α] [FloorRing α] (x : α) : α :=
  (round (x * 100) : ℤ) / 100

/-- The quarter-end date of quarter slot `i` (0-indexed) starting at
`start_year` — the body of the loop in `_quarter_end_dates`. -/
def qdate (start_year : Nat) (i : Nat) : Ymd :=
  let year := start_year + i / 4
  match i % 4 with
  | 0 => ⟨year, 3, 31⟩
  | 1 => ⟨year, 6, 30⟩
  | 2 => ⟨year, 9, 30⟩
  | _ => ⟨year, 12, 31⟩

/-- `_quarter_end_dates` from `cashflow_forecast.py`. -/
def quarter_end_dates (start_year : Nat) (num_quarters : Nat) : List Ymd :=
  (List.range num_quarters).map (qdate start_year)

/-- The quarter-emission block repeated verbatim at the end of every
model's loop body: append a capital call when `call > 0.01` and a
distribution when `dist > 0.01`, amounts rounded to 2 decimals. -/
def emitQuarter {α : Type} [LinearOrderedField α] [FloorRing α]
    (d : Ymd) (call dist : α) : List (FcEvent α) :=
  (if call > 1/100 then [⟨d, .capital_call, round2 call⟩] else []) ++
  (if dist > 1/100 then [⟨d, .distribution, round2 dist⟩] else [])

/-- A benchmark curve: annual call and distribution percentages. -/
structure Curve where
  calls : List ℚ
  dists : List ℚ
deriving DecidableEq, Repr

/-- The embedded `CAMBRIDGE_BENCHMARKS` table. -/
def CAMBRIDGE_BENCHMARKS : List (String × List (String × Curve)) :=
  [ ("buyout",
     [ ("q1", ⟨[20/100, 20/100, 15/100, 10/100, 8/100, 5/100, 3/100, 2/100, 1/100, 1/100],
               [0, 2/100, 5/100, 10/100, 15/100, 18/100, 20/100, 18/100, 12/100, 8/100]⟩),
       ("median", ⟨[25/100, 25/100, 18/100, 12/100, 8/100, 5/100, 3/100, 2/100, 1/100, 1/100],
               [0, 3/100, 8/100, 14/100, 18/100, 22/100, 24/100, 22/100, 15/100, 10/100]⟩),
       ("q3", ⟨[30/100, 28/100, 20/100, 12/100, 5/100, 3/100, 1/100, 1/100, 0, 0],
               [0, 5/100, 12/100, 20/100, 25/100, 28/100, 30/100, 28/100, 20/100, 15/100]⟩) ]),
    ("venture",
     [ ("q1", ⟨[15/100, 20/100, 20/100, 15/100, 10/100, 8/100, 5/100, 3/100, 2/100, 2/100],
               [0, 0, 2/100, 5/100, 8/100, 12/100, 15/100, 18/100, 15/100, 10/100]⟩),
       ("median", ⟨[20/100, 22/100, 20/100, 15/100, 10/100, 6/100, 4/100, 2/100, 1/100, 0],
               [0, 1/100, 4/100, 8/100, 12/100, 16/100, 20/100, 22/100, 18/100, 12/100]⟩),
       ("q3", ⟨[25/100, 25/100, 22/100, 13/100, 8/100, 4/100, 2/100, 1/100, 0, 0],
               [0, 2/100, 8/100, 15/100, 20/100, 25/100, 30/100, 32/100, 25/100, 18/100]⟩) ]),
    ("growth",
     [ ("q1", ⟨[22/100, 22/100, 18/100, 12/100, 8/100, 6/100, 4/100, 3/100, 2/100, 1/100],
               [0, 2/100, 6/100, 10/100, 14/100, 18/100, 20/100, 18/100, 14/100, 10/100]⟩),
       ("median", ⟨[25/100, 25/100, 20/100, 12/100, 8/100, 5/100, 3/100, 1/100, 1/100, 0],
               [0, 3/100, 8/100, 14/100, 18/100, 22/100, 24/100, 22/100, 16/100, 12/100]⟩),
       ("q3", ⟨[30/100, 28/100, 22/100, 10/100, 5/100, 3/100, 1/100, 1/100, 0, 0],
               [0, 5/100, 12/100, 20/100, 24/100, 28/100, 30/100, 28/100, 22/100, 16/100]⟩) ]),
    ("infrastructure",
     [ ("q1", ⟨[15/100, 18/100, 18/100, 15/100, 12/100, 8/100, 5/100, 4/100, 3/100, 2/100],
               [0, 2/100, 5/100, 8/100, 10/100, 12/100, 14/100, 14/100, 12/100, 10/100]⟩),
       ("median", ⟨[20/100, 22/100, 20/100, 15/100, 10/100, 6/100, 4/100, 2/100, 1/100, 0],
               [0, 3/100, 7/100, 10/100, 13/100, 16/100, 18/100, 18/100, 15/100, 12/100]⟩),
       ("q3", ⟨[25/100, 25/100, 22/100, 13/100, 8/100, 4/100, 2/100, 1/100, 0, 0],
               [0, 5/100, 10/100, 15/100, 18/100, 22/100, 24/100, 24/100, 20/100, 16/100]⟩) ]),
    ("real_estate",
     [ ("q1", ⟨[18/100, 20/100, 18/100, 15/100, 10/100, 7/100, 5/100, 3/100, 2/100, 2/100],
               [0, 3/100, 6/100, 10/100, 12/100, 15/100, 16/100, 16/100, 14/100, 10/100]⟩),
       ("median", ⟨[22/100, 24/100, 20/100, 14/100, 8/100, 5/100, 4/100, 2/100, 1/100, 0],
               [0, 4/100, 8/100, 12/100, 16/100, 18/100, 20/100, 20/100, 16/100, 12/100]⟩),
       ("q3", ⟨[28/100, 26/100, 22/100, 12/100, 6/100, 3/100, 2/100, 1/100, 0, 0],
               [0, 6/100, 12/100, 18/100, 22/100, 26/100, 28/100, 26/100, 22/100, 16/100]⟩) ]) ]

/-- `CAMBRIDGE_BENCHMARKS.get(strategy, ...['buyout'])` followed by
`benchmarks.get(percentile, benchmarks['median'])`.  The `buyout` and
`median` fallbacks always exist in the table, so the final `.getD`
defaults are never reached. -/
def bench_lookup (strategy percentile : String) : Curve :=
  let buyout := ((CAMBRIDGE_BENCHMARKS.find? (fun e => e.1 = "buyout")).map
    Prod.snd).getD []
  let benchmarks := ((CAMBRIDGE_BENCHMARKS.find? (fun e => e.1 = strategy)).map
    Prod.snd).getD buyout
  let median := ((benchmarks.find? (fun e => e.1 = "median")).map Prod.snd).getD ⟨[], []⟩
  ((benchmarks.find? (fun e => e.1 = percentile)).map Prod.snd).getD median

/-- The pad-with-zeros-then-truncate of the benchmark curves to the fund
lifetime (`while len < lifetime: append 0.0` followed by `[:lifetime]`). -/
def padTrim (l : List ℚ) (n : Nat) : List ℚ :=
  (l ++ List.replicate (n - l.length) 0).take n

/-- `forecast_cambridge_quantile` from `cashflow_forecast.py`.  The
quarterly value of slot `i` is the year `i / 4` annual value divided by
4 (`_annual_to_quarterly`), guarded by the `i < len(quarterly_...)`
bounds check of the loop. -/
def forecast_cambridge_quantile (commitment : ℚ) (lifetime : Nat := 10)
    (vintage_year : Nat := 2024) (strategy : String := "buyout")
    (percentile : String := "median") (tvpi_multiple : ℚ := 8/5) :
    List (FcEvent ℚ) :=
  let curves := bench_lookup strategy percentile
  let call_pcts := padTrim curves.calls lifetime
  let dist_pcts₀ := padTrim curves.dists lifetime
  let total_calls_pct := call_pcts.sum
  let total_dists_pct := dist_pcts₀.sum
  let dist_pcts :=
    if 0 < total_dists_pct ∧ 0 < total_calls_pct then
      dist_pcts₀.map (fun d => d * (total_calls_pct * tvpi_multiple / total_dists_pct))
    else dist_pcts₀
  let num_quarters := lifetime * 4
  (List.range num_quarters).flatMap (fun i =>
    let call := if i < 4 * call_pcts.length then
      (call_pcts.getD (i / 4) 0) * commitment / 4 else 0
    let dist := if i < 4 * dist_pcts.length then
      (dist_pcts.getD (i / 4) 0) * commitment / 4 else 0
    emitQuarter (qdate vintage_year i) call dist)

/-- `forecast_linear` from `cashflow_forecast.py`.  `harvest_quarters`
is a Python int and may be negative, hence `ℤ`. -/
def forecast_linear (commitment : ℚ) (lifetime : Nat := 10)
    (vintage_year : Nat := 2024) (investment_period : Nat := 5)
    (harvest_start : Nat := 4) (tvpi_multiple : ℚ := 3/2) :
    List (FcEvent ℚ) :=
  let num_quarters := lifetime * 4
  let call_quarters := investment_period * 4
  let quarterly_call : ℚ :=
    if 0 < call_quarters then commitment / (call_quarters : ℚ) else 0
  let harvest_quarters : ℤ := ((lifetime : ℤ) - (harvest_start : ℤ)) * 4
  let total_dist := commitment * tvpi_multiple
  let quarterly_dist : ℚ :=
    if 0 < harvest_quarters then total_dist / (harvest_quarters : ℚ) else 0
  (List.range num_quarters).flatMap (fun i =>
    let year_offset : ℚ := (i : ℚ) / 4
    let call := if i < call_quarters then quarterly_call else 0
    let dist := if (harvest_start : ℚ) ≤ year_offset then quarterly_dist else 0
    emitQuarter (qdate vintage_year i) call dist)

/-- `dict.get(year_idx, 0.0)` on a pacing map. -/
def pacingGet (l : List (Nat × ℚ)) (y : Nat) : ℚ :=
  ((l.find? (fun p => p.1 = y)).map Prod.snd).getD 0

/-- `max(keys) + 1` over a non-empty pacing map (0 on empty, matching
the `if call_pacing:` guard around each use). -/
def maxKeySucc (l : List (Nat × ℚ)) : Nat :=
  (l.map (fun p => p.1 + 1)).foldr max 0

/-- `forecast_manual` from `cashflow_forecast.py`.  Pacing maps are
association lists `{year_offset: pct}`. -/
def forecast_manual (commitment : ℚ) (vintage_year : Nat := 2024)
    (call_pacing : List (Nat × ℚ) := []) (dist_pacing : List (Nat × ℚ) := [])
    (tvpi_multiple : ℚ := 3/2) : List (FcEvent ℚ) :=
  if call_pacing = [] ∧ dist_pacing = [] then []
  else
    let max_year := max (maxKeySucc call_pacing) (maxKeySucc dist_pacing)
    let lifetime := max max_year 1
    let total_call_pct := (call_pacing.map Prod.snd).sum
    let total_dist_pct := (dist_pacing.map Prod.snd).sum
    let dist_scale : ℚ :=
      if 0 < total_dist_pct ∧ 0 < total_call_pct then
        total_call_pct * tvpi_multiple / total_dist_pct
      else 1
    let num_quarters := lifetime * 4
    (List.range num_quarters).flatMap (fun i =>
      let year_idx := i / 4
      let call := pacingGet call_pacing year_idx * commitment / 4
      let dist := pacingGet dist_pacing year_idx * commitment * dist_scale / 4
      emitQuarter (qdate vintage_year i) call dist)

/-- The per-calendar-year aggregation of the historical fund's amounts
over the given types — the `call_by_year`/`dist_by_year` dictionaries.
A key absent from the dictionary yields the same pacing value 0 as a
`dict.get(..., 0.0)` miss. -/
def histYearSum (hist : List (FcEvent ℚ)) (first_year : Nat) (tys : List CFKind)
    (y : Nat) : ℚ :=
  ((hist.filter (fun cf => cf.type ∈ tys ∧ cf.date.year = first_year + y)).map
    FcEvent.amount).sum

/-- The year offsets (relative to the first event year) at which the
historical fund has an event of the given types — the key set of the
corresponding pacing dictionary. -/
def histYearKeys (hist : List (FcEvent ℚ)) (first_year : Nat) (tys : List CFKind) :
    List Nat :=
  (hist.filter (fun cf => cf.type ∈ tys)).map (fun cf => cf.date.year - first_year)

/-- The first event year of the historical fund (`dates_list[0].year`,
the minimum since the list is sorted). -/
def firstYearOf (hist : List (FcEvent ℚ)) : Nat :=
  ((hist.map (fun cf => cf.date.year)).min?).getD 0

/-- `max(pacing.keys()) + 1` over both derived pacing dictionaries. -/
def histMaxYear (hist : List (FcEvent ℚ)) : Nat :=
  max (((histYearKeys hist (firstYearOf hist) OUTFLOW_TYPES).map (fun k => k + 1)).foldr max 0)
      (((histYearKeys hist (firstYearOf hist) INFLOW_TYPES).map (fun k => k + 1)).foldr max 0)

/-- `forecast_historical_average` from `cashflow_forecast.py`.
Historical rows always carry a well-typed date, so the `isinstance`
filter keeps every row and `year_offset = cf_date.year - first_year` is
never negative (`first_year` is the minimum event year); the `Nat`
subtraction in `histYearKeys`/`histYearSum` is therefore exact.  A
falsy (`None` or zero) historical commitment and a non-positive one
both return the empty list, so the two source guards collapse into the
single test `historical_commitment.getD 0 ≤ 0`. -/
def forecast_historical_average (commitment : ℚ) (lifetime : Nat := 10)
    (vintage_year : Nat := 2024)
    (historical_cashflows : List (FcEvent ℚ) := [])
    (historical_commitment : Option ℚ := none) : List (FcEvent ℚ) :=
  if historical_cashflows = [] then []
  else if historical_commitment.getD 0 ≤ 0 then []
  else if histYearKeys historical_cashflows (firstYearOf historical_cashflows)
      OUTFLOW_TYPES = [] ∧
      histYearKeys historical_cashflows (firstYearOf historical_cashflows)
      INFLOW_TYPES = [] then []
  else
    (List.range (max (histMaxYear historical_cashflows) lifetime * 4)).flatMap
      (fun i =>
        emitQuarter (qdate vintage_year i)
          (histYearSum historical_cashflows (firstYearOf historical_cashflows)
            OUTFLOW_TYPES (i / 4) / historical_commitment.getD 0 * commitment / 4)
          (histYearSum historical_cashflows (firstYearOf historical_cashflows)
            INFLOW_TYPES (i / 4) / historical_commitment.getD 0 * commitment / 4))

noncomputable section RealModels

/-- The parabolic bow weight of quarter `i` in the Takahashi-Alexander
model: `((t·(L−t))/(L/2)²)^bow_factor` for `t = (i+1)/4`, and 0 when the
base is not positive (`**` on floats is `Real.rpow`). -/
def taBow (L bow_factor : ℝ) (i : Nat) : ℝ :=
  if 0 < (((i : ℝ) + 1) / 4) * (L - ((i : ℝ) + 1) / 4) / (L / 2) ^ 2 then
    ((((i : ℝ) + 1) / 4) * (L - ((i : ℝ) + 1) / 4) / (L / 2) ^ 2) ^ bow_factor
  else 0

/-- The quarter loop of `forecast_takahashi_alexander`, carrying
`(nav, total_called)`; `fuel` counts the remaining quarters, `i` the
current slot. -/
def taLoop (c rc_q rd_q g_q L bf : ℝ) (v : Nat) :
    Nat → Nat → ℝ → ℝ → List (FcEvent ℝ)
  | 0, _, _, _ => []
  | fuel + 1, i, nav, tc =>
    let bow := taBow L bf i
    let unfunded := c - tc
    let call := max 0 (min (rc_q * bow * unfunded) unfunded)
    let tc' := tc + call
    let nav₁ := (nav + call) * (1 + g_q)
    let dist := max 0 (min (rd_q * bow * nav₁) nav₁)
    let nav' := nav₁ - dist
    emitQuarter (qdate v i) call dist ++ taLoop c rc_q rd_q g_q L bf v fuel (i + 1) nav' tc'

/-- `forecast_takahashi_alexander` from `cashflow_forecast.py`. -/
def forecast_takahashi_alexander (commitment : ℝ) (lifetime : Nat := 10)
    (vintage_year : Nat := 2024) (rc : ℝ := 1/4) (rd : ℝ := 1/5)
    (bow_factor : ℝ := 5/2) (growth_rate : ℝ := 2/25) : List (FcEvent ℝ) :=
  taLoop commitment (rc / 4) (rd / 4) ((1 + growth_rate) ^ ((1 : ℝ)/4) - 1)
    (lifetime : ℝ) bow_factor vintage_year (lifetime * 4) 0 0 0

/-- The quarter loop of `forecast_driessen_lin_phalippou`. -/
def dlpLoop (c dr_q dist_r_q g_q : ℝ) (v : Nat) :
    Nat → Nat → ℝ → ℝ → List (FcEvent ℝ)
  | 0, _, _, _ => []
  | fuel + 1, i, nav, tc =>
    let unfunded := c - tc
    let call := max 0 (min (dr_q * unfunded) unfunded)
    let tc' := tc + call
    let nav₁ := (nav + call) * (1 + g_q)
    let dist := if (3 : ℝ) ≤ ((i : ℝ) + 1) / 4 then
      max 0 (min (dist_r_q * nav₁) nav₁) else 0
    let nav' := nav₁ - dist
    emitQuarter (qdate v i) call dist ++ dlpLoop c dr_q dist_r_q g_q v fuel (i + 1) nav' tc'

/-- `forecast_driessen_lin_phalippou` from `cashflow_forecast.py`:
exponential decay on unfunded for calls, distributions from year 3. -/
def forecast_driessen_lin_phalippou (commitment : ℝ) (lifetime : Nat := 10)
    (vintage_year : Nat := 2024) (drawdown_rate : ℝ := 3/10)
    (distribution_rate : ℝ := 1/4) (nav_growth_rate : ℝ := 1/10) :
    List (FcEvent ℝ) :=
  dlpLoop commitment (1 - (1 - drawdown_rate) ^ ((1 : ℝ)/4))
    (1 - (1 - distribution_rate) ^ ((1 : ℝ)/4))
    ((1 + nav_growth_rate) ^ ((1 : ℝ)/4) - 1)
    vintage_year (lifetime * 4) 0 0 0

/-- The quarter loop of `forecast_ljungqvist_richardson`; `n` is the
total quarter count (for the residual-liquidation division). -/
def lrLoop (c g_q : ℝ) (ipace hpace : List ℝ) (harvest_start n : Nat) (v : Nat) :
    Nat → Nat → ℝ → ℝ → List (FcEvent ℝ)
  | 0, _, _, _ => []
  | fuel + 1, i, nav, tc =>
    let year_idx := i / 4
    let call := if year_idx < ipace.length then
      max 0 (min (ipace.getD year_idx 0 * c / 4) (c - tc)) else 0
    let tc' := tc + call
    let nav₁ := (nav + call) * (1 + g_q)
    let hyi : ℤ := (year_idx : ℤ) - (harvest_start : ℤ)
    let dist :=
      if 0 ≤ hyi ∧ hyi < (hpace.length : ℤ) then
        max 0 (min ((hpace.getD hyi.toNat 0 / 4) * nav₁) nav₁)
      else if (hpace.length : ℤ) ≤ hyi ∧ 1/100 < nav₁ then
        (if 0 < n - i then max 0 (min (nav₁ / ((n - i : Nat) : ℝ)) nav₁) else 0)
      else 0
    let nav' := nav₁ - dist
    emitQuarter (qdate v i) call dist ++
      lrLoop c g_q ipace hpace harvest_start n v fuel (i + 1) nav' tc'

/-- `forecast_ljungqvist_richardson` from `cashflow_forecast.py`:
investment-pace table (padded with zeros to the investment period) for
calls, harvest-pace table for distributions, residual NAV liquidated
evenly after the table is exhausted. -/
def forecast_ljungqvist_richardson (commitment : ℝ) (lifetime : Nat := 10)
    (vintage_year : Nat := 2024) (investment_period : Nat := 5)
    (investment_pace : List ℝ := [1/4, 1/4, 1/5, 3/20, 3/20])
    (harvest_start : Nat := 4)
    (harvest_pace : List ℝ := [1/10, 3/20, 1/5, 1/4, 3/10, 7/20, 2/5])
    (nav_growth_rate : ℝ := 1/10) : List (FcEvent ℝ) :=
  let ipace := investment_pace ++
    List.replicate (investment_period - investment_pace.length) 0
  lrLoop commitment ((1 + nav_growth_rate) ^ ((1 : ℝ)/4) - 1) ipace harvest_pace
    harvest_start (lifetime * 4) vintage_year (lifetime * 4) 0 0 0

end RealModels

/-- Nothing is emitted when both quarter values are at or below the
0.01 threshold. -/
theorem emitQuarter_eq_nil {α : Type} [LinearOrderedField α] [FloorRing α]
    (d : Ymd) (call dist : α) (hc : call ≤ 1/100) (hd : dist ≤ 1/100) :
    emitQuarter d call dist = [] := by
  unfold emitQuarter
  rw [if_neg (not_lt.mpr hc), if_neg (not_lt.mpr hd)]
  rfl

/-- With non-positive commitment the Takahashi-Alexander loop never
leaves the `(nav, total_called) = (0, 0)` state and emits nothing. -/
theorem taLoop_nil_of_nonpos (c rc_q rd_q g_q L bf : ℝ) (v : Nat) (hc : c ≤ 0) :
    ∀ fuel i, taLoop c rc_q rd_q g_q L bf v fuel i 0 0 = [] := by
  intro fuel
  induction fuel with
  | zero => intro i; rfl
  | succ f ih =>
    intro i
    have hcall : max 0 (min (rc_q * taBow L bf i * (c - 0)) (c - 0)) = 0 :=
      max_eq_left (le_trans (min_le_right _ _) (by simpa using hc))
    simp only [taLoop, hcall]
    rw [emitQuarter_eq_nil _ _ _ (by norm_num) (by norm_num)]
    simpa using ih (i + 1)

/-- With non-positive commitment the Driessen-Lin-Phalippou loop emits
nothing. -/
theorem dlpLoop_nil_of_nonpos (c dr_q dist_r_q g_q : ℝ) (v : Nat) (hc : c ≤ 0) :
    ∀ fuel i, dlpLoop c dr_q dist_r_q g_q v fuel i 0 0 = [] := by
  intro fuel
  induction fuel with
  | zero => intro i; rfl
  | succ f ih =>
    intro i
    have hcall : max 0 (min (dr_q * (c - 0)) (c - 0)) = 0 :=
      max_eq_left (le_trans (min_le_right _ _) (by simpa using hc))
    simp only [dlpLoop, hcall]
    rw [emitQuarter_eq_nil _ _ _ (by norm_num) (by norm_num)]
    simpa using ih (i + 1)

/-- A flatMap over quarters is empty when every quarter emits nothing. -/
theorem flatMap_nil_of_all_nil {α β : Type} (l : List α) (f : α → List β)
    (h : ∀ x ∈ l, f x = []) : l.flatMap f = [] := by
  induction l with
  | nil => rfl
  | cons a t ih =>
    rw [List.flatMap_cons, h a (List.mem_cons_self a t), List.nil_append]
    exact ih (fun x hx => h x (List.mem_cons_of_mem a hx))

/-- Indexing (`getD … 0`) into a list of non-negatives is non-negative. -/
theorem getD_nonneg (l : List ℚ) (n : Nat) (h : ∀ x ∈ l, 0 ≤ x) :
    0 ≤ l.getD n 0 := by
  rw [List.getD_eq_getElem?_getD]
  rcases hg : l[n]? with _ | x
  · simp
  · simpa using h x (List.getElem?_mem hg)

/-- Pad-and-truncate preserves entry-wise non-negativity (the padding is
zeros, the truncation a sublist). -/
theorem padTrim_nonneg (l : List ℚ) (n : Nat) (h : ∀ x ∈ l, 0 ≤ x) :
    ∀ x ∈ padTrim l n, 0 ≤ x := by
  intro x hx
  rcases List.mem_append.mp (List.mem_of_mem_take hx) with hm | hm
  · exact h x hm
  · rw [List.eq_of_mem_replicate hm]

/-- Entry-wise non-negativity of a benchmark curve. -/
abbrev CurveOK (cu : Curve) : Prop :=
  (∀ x ∈ cu.calls, 0 ≤ x) ∧ (∀ x ∈ cu.dists, 0 ≤ x)

/-- An association-list lookup with a default either returns the default
or the value of a member. -/
theorem find_snd_getD_cases {α β : Type} (l : List (α × β))
    (pred : α × β → Bool) (dflt : β) :
    (((l.find? pred).map Prod.snd).getD dflt) = dflt ∨
    ∃ e ∈ l, (((l.find? pred).map Prod.snd).getD dflt) = e.2 := by
  rcases h : l.find? pred with _ | e
  · left; rfl
  · right
    exact ⟨e, List.mem_of_find?_eq_some h, rfl⟩

set_option maxHeartbeats 1600000 in
/-- Every entry of the embedded benchmark table is a curve with
non-negative percentages. -/
theorem cambridge_table_ok :
    ∀ e ∈ CAMBRIDGE_BENCHMARKS, ∀ pc ∈ e.2, CurveOK pc.2 := by
  intro e he pc hpc
  simp only [CAMBRIDGE_BENCHMARKS, List.mem_cons, List.not_mem_nil, or_false] at he
  rcases he with rfl | rfl | rfl | rfl | rfl <;>
    · simp only [List.mem_cons, List.not_mem_nil, or_false] at hpc
      rcases hpc with rfl | rfl | rfl <;>
        · constructor <;>
            · intro x hx
              simp only [List.mem_cons, List.not_mem_nil, or_false] at hx
              rcases hx with rfl | rfl | rfl | rfl | rfl | rfl | rfl | rfl | rfl | rfl <;>
                norm_num

/-- Every curve the Cambridge lookup can return — any strategy string,
any percentile string, including the `buyout`/`median` fallbacks — has
non-negative call and distribution percentages. -/
theorem bench_lookup_ok (strategy percentile : String) :
    CurveOK (bench_lookup strategy percentile) := by
  have htab := cambridge_table_ok
  unfold bench_lookup
  have hbuy : ∀ pc ∈ (((CAMBRIDGE_BENCHMARKS.find? (fun e => e.1 = "buyout")).map
      Prod.snd).getD ([] : List (String × Curve))), CurveOK pc.2 := by
    rcases find_snd_getD_cases CAMBRIDGE_BENCHMARKS (fun e => e.1 = "buyout") [] with
      h | ⟨e, he, h⟩
    · rw [h]; intro pc hpc; cases hpc
    · rw [h]; exact htab e he
  have hbm : ∀ pc ∈ (((CAMBRIDGE_BENCHMARKS.find? (fun e => e.1 = strategy)).map
      Prod.snd).getD (((CAMBRIDGE_BENCHMARKS.find? (fun e => e.1 = "buyout")).map
      Prod.snd).getD [])), CurveOK pc.2 := by
    rcases find_snd_getD_cases CAMBRIDGE_BENCHMARKS (fun e => e.1 = strategy) _ with
      h | ⟨e, he, h⟩
    · rw [h]; exact hbuy
    · rw [h]; exact htab e he
  have hmed : CurveOK ((((((CAMBRIDGE_BENCHMARKS.find? (fun e => e.1 = strategy)).map
      Prod.snd).getD (((CAMBRIDGE_BENCHMARKS.find? (fun e => e.1 = "buyout")).map
      Prod.snd).getD [])).find? (fun e => e.1 = "median")).map Prod.snd).getD
      ⟨[], []⟩) := by
    rcases find_snd_getD_cases _ (fun e : String × Curve => e.1 = "median")
      (⟨[], []⟩ : Curve) with h | ⟨e, he, h⟩
    · rw [h]
      exact ⟨fun x hx => ((List.not_mem_nil x) hx).elim,
             fun x hx => ((List.not_mem_nil x) hx).elim⟩
    · rw [h]; exact hbm e he
  rcases find_snd_getD_cases _ (fun e : String × Curve => e.1 = percentile) _ with
    h | ⟨e, he, h⟩
  · rw [h]; exact hmed
  · rw [h]; exact hbm e he

/-- With non-positive commitment the Ljungqvist-Richardson loop emits
nothing (calls are clamped to the non-positive unfunded amount, so NAV
never leaves 0 and the distribution branches stay at 0). -/
theorem lrLoop_nil_of_nonpos (c g_q : ℝ) (ipace hpace : List ℝ)
    (harvest_start n : Nat) (v : Nat) (hc : c ≤ 0) :
    ∀ fuel i, lrLoop c g_q ipace hpace harvest_start n v fuel i 0 0 = [] := by
  intro fuel
  induction fuel with
  | zero => intro i; rfl
  | succ f ih =>
    intro i
    have hcall : (if i / 4 < ipace.length then
        max 0 (min (ipace.getD (i / 4) 0 * c / 4) (c - 0)) else 0) = 0 := by
      split
      · exact max_eq_left (le_trans (min_le_right _ _) (by simpa using hc))
      · rfl
    have hnav : ((0 : ℝ) + 0) * (1 + g_q) = 0 := by ring
    simp only [lrLoop, hcall, hnav]
    have hdist : (if 0 ≤ ((i / 4 : Nat) : ℤ) - (harvest_start : ℤ) ∧
          ((i / 4 : Nat) : ℤ) - (harvest_start : ℤ) < (hpace.length : ℤ) then
        max 0 (min (hpace.getD (((i / 4 : Nat) : ℤ) - (harvest_start : ℤ)).toNat 0 / 4 * 0) 0)
      else if (hpace.length : ℤ) ≤ ((i / 4 : Nat) : ℤ) - (harvest_start : ℤ) ∧
          1/100 < (0 : ℝ) then
        (if 0 < n - i then max 0 (min (0 / ((n - i : Nat) : ℝ)) 0) else 0)
      else 0) = 0 := by
      split
      · simp
      · split
        · split <;> simp
        · rfl
    rw [hdist]
    rw [emitQuarter_eq_nil _ _ _ (by norm_num) (by norm_num)]
    simpa using ih (i + 1)

/-- A pacing-map lookup with default 0 over non-negative values is
non-negative. -/
theorem pacingGet_nonneg (l : List (Nat × ℚ)) (y : Nat)
    (h : ∀ p ∈ l, 0 ≤ p.2) : 0 ≤ pacingGet l y := by
  unfold pacingGet
  rcases hf : l.find? (fun p => p.1 = y) with _ | e
  · rw [hf]
    simp
  · rw [hf]
    simpa using h e (List.mem_of_find?_eq_some hf)

/-- Per-year historical sums of non-negative amounts are non-negative. -/
theorem histYearSum_nonneg (hist : List (FcEvent ℚ)) (fy : Nat)
    (tys : List CFKind) (y : Nat) (h : ∀ cf ∈ hist, 0 ≤ cf.amount) :
    0 ≤ histYearSum hist fy tys y := by
  unfold histYearSum
  apply List.sum_nonneg
  intro x hx
  rcases List.mem_map.mp hx with ⟨cf, hcf, rfl⟩
  exact h cf (List.mem_of_mem_filter hcf)

/-- A per-quarter amount drawn from a non-negative percentage list times
a non-positive commitment stays below the emission threshold. -/
theorem quarterVal_below_threshold (L : List ℚ) (c : ℚ) (i : Nat)
    (hL : ∀ x ∈ L, 0 ≤ x) (hc : c ≤ 0) :
    (if i < 4 * L.length then L.getD (i / 4) 0 * c / 4 else 0) ≤ 1/100 := by
  split
  · have hpct := getD_nonneg L (i / 4) hL
    have hmul : L.getD (i / 4) 0 * c / 4 ≤ 0 :=
      div_nonpos_of_nonpos_of_nonneg (mul_nonpos_iff.mpr (.inl ⟨hpct, hc⟩))
        (by norm_num)
    linarith
  · norm_num

/-- With non-positive commitment and non-negative TVPI, the Cambridge
Quantile model produces no events. -/
theorem forecast_cambridge_quantile_nil (c : ℚ) (lifetime vintage : Nat)
    (strategy percentile : String) (tvpi : ℚ) (hc : c ≤ 0) (ht : 0 ≤ tvpi) :
    forecast_cambridge_quantile c lifetime vintage strategy percentile tvpi = [] := by
  unfold forecast_cambridge_quantile
  apply flatMap_nil_of_all_nil
  intro i _
  apply emitQuarter_eq_nil
  · exact quarterVal_below_threshold _ c i
      (padTrim_nonneg _ lifetime (bench_lookup_ok strategy percentile).1) hc
  · apply quarterVal_below_threshold _ c i _ hc
    split
    · next hcond =>
      intro x hx
      rcases List.mem_map.mp hx with ⟨d, hd, rfl⟩
      have hd0 := padTrim_nonneg _ lifetime
        (bench_lookup_ok strategy percentile).2 d hd
      exact mul_nonneg hd0
        (div_nonneg (mul_nonneg (le_of_lt hcond.2) ht) (le_of_lt hcond.1))
    · exact padTrim_nonneg _ lifetime (bench_lookup_ok strategy percentile).2

/-- With non-positive commitment and non-negative TVPI, the Linear model
produces no events. -/
theorem forecast_linear_nil (c : ℚ) (lifetime vintage ip hs : Nat) (tvpi : ℚ)
    (hc : c ≤ 0) (ht : 0 ≤ tvpi) :
    forecast_linear c lifetime vintage ip hs tvpi = [] := by
  unfold forecast_linear
  apply flatMap_nil_of_all_nil
  intro i _
  have hqc : (if 0 < ip * 4 then c / ((ip * 4 : Nat) : ℚ) else 0) ≤ 0 := by
    split
    · exact div_nonpos_of_nonpos_of_nonneg hc (Nat.cast_nonneg _)
    · exact le_refl 0
  have hqd : (if 0 < ((lifetime : ℤ) - (hs : ℤ)) * 4 then
      c * tvpi / ((((lifetime : ℤ) - (hs : ℤ)) * 4 : ℤ) : ℚ) else 0) ≤ 0 := by
    split
    · next hq =>
      have hcast : (0:ℚ) ≤ ((((lifetime : ℤ) - (hs : ℤ)) * 4 : ℤ) : ℚ) := by
        exact_mod_cast le_of_lt hq
      exact div_nonpos_of_nonpos_of_nonneg
        (mul_nonpos_iff.mpr (.inr ⟨hc, ht⟩)) hcast
    · exact le_refl 0
  apply emitQuarter_eq_nil
  · split
    · linarith
    · norm_num
  · split
    · linarith
    · norm_num

/-- With non-positive commitment, non-negative pacing percentages and
non-negative TVPI, Manual Pacing produces no events. -/
theorem forecast_manual_nil (c : ℚ) (vintage : Nat)
    (cp dp : List (Nat × ℚ)) (tvpi : ℚ) (hc : c ≤ 0)
    (hcp : ∀ p ∈ cp, 0 ≤ p.2) (hdp : ∀ p ∈ dp, 0 ≤ p.2) (ht : 0 ≤ tvpi) :
    forecast_manual c vintage cp dp tvpi = [] := by
  unfold forecast_manual
  split
  · rfl
  · apply flatMap_nil_of_all_nil
    intro i _
    apply emitQuarter_eq_nil
    · have h1 := pacingGet_nonneg cp (i / 4) hcp
      have : pacingGet cp (i / 4) * c / 4 ≤ 0 :=
        div_nonpos_of_nonpos_of_nonneg (mul_nonpos_iff.mpr (.inl ⟨h1, hc⟩))
          (by norm_num)
      linarith
    · have h1 := pacingGet_nonneg dp (i / 4) hdp
      have hscale : (0:ℚ) ≤ (if 0 < (dp.map Prod.snd).sum ∧ 0 < (cp.map Prod.snd).sum
          then (cp.map Prod.snd).sum * tvpi / (dp.map Prod.snd).sum else 1) := by
        split
        · next hcond =>
          exact div_nonneg (mul_nonneg (le_of_lt hcond.2) ht) (le_of_lt hcond.1)
        · norm_num
      have : pacingGet dp (i / 4) * c *
          (if 0 < (dp.map Prod.snd).sum ∧ 0 < (cp.map Prod.snd).sum
            then (cp.map Prod.snd).sum * tvpi / (dp.map Prod.snd).sum else 1) / 4 ≤ 0 := by
        apply div_nonpos_of_nonpos_of_nonneg _ (by norm_num)
        exact mul_nonpos_iff.mpr (.inr ⟨mul_nonpos_iff.mpr (.inl ⟨h1, hc⟩), hscale⟩)
      linarith

/-- With non-positive commitment and non-negative historical amounts,
Historical Average produces no events (whatever the historical data). -/
theorem forecast_historical_average_nil (c : ℚ) (lifetime vintage : Nat)
    (hist : List (FcEvent ℚ)) (hcommit : Option ℚ) (hc : c ≤ 0)
    (hamt : ∀ cf ∈ hist, 0 ≤ cf.amount) :
    forecast_historical_average c lifetime vintage hist hcommit = [] := by
  unfold forecast_historical_average
  split
  · rfl
  · split
    · rfl
    · next hpos =>
      split
      · rfl
      · apply flatMap_nil_of_all_nil
        intro i _
        have hden : (0:ℚ) < hcommit.getD 0 := lt_of_not_ge hpos
        apply emitQuarter_eq_nil
        · have h1 : 0 ≤ histYearSum hist (firstYearOf hist) OUTFLOW_TYPES (i / 4) /
              hcommit.getD 0 :=
            div_nonneg (histYearSum_nonneg _ _ _ _ hamt) (le_of_lt hden)
          have : histYearSum hist (firstYearOf hist) OUTFLOW_TYPES (i / 4) /
              hcommit.getD 0 * c / 4 ≤ 0 :=
            div_nonpos_of_nonpos_of_nonneg
              (mul_nonpos_iff.mpr (.inl ⟨h1, hc⟩)) (by norm_num)
          linarith
        · have h1 : 0 ≤ histYearSum hist (firstYearOf hist) INFLOW_TYPES (i / 4) /
              hcommit.getD 0 :=
            div_nonneg (histYearSum_nonneg _ _ _ _ hamt) (le_of_lt hden)
          have : histYearSum hist (firstYearOf hist) INFLOW_TYPES (i / 4) /
              hcommit.getD 0 * c / 4 ≤ 0 :=
            div_nonpos_of_nonpos_of_nonneg
              (mul_nonpos_iff.mpr (.inl ⟨h1, hc⟩)) (by norm_num)
          linarith

/-- Historical Average with an empty history, a missing historical
commitment or a non-positive one returns an empty list. -/
theorem forecast_historical_average_missing (c : ℚ) (lifetime vintage : Nat)
    (hist : List (FcEvent ℚ)) :
    forecast_historical_average c lifetime vintage [] none = [] ∧
    forecast_historical_average c lifetime vintage hist none = [] ∧
    (∀ h, h ≤ 0 → forecast_historical_average c lifetime vintage hist (some h) = []) := by
  refine ⟨rfl, ?_, ?_⟩
  · unfold forecast_historical_average
    split
    · rfl
    · rw [if_pos (by norm_num : (none : Option ℚ).getD 0 ≤ 0)]
  · intro h hh
    unfold forecast_historical_average
    split
    · rfl
    · rw [if_pos (by simpa using hh)]

/-- C8: the shared degenerate-input policy of the seven pacing models
(all total functions — no error can be raised).  With non-positive
commitment every model returns the empty event list: unconditionally for
the three clamped NAV-recursion models, and given the documented
parameter domain (non-negative benchmark/pacing percentages, TVPI and
historical amounts) for the table-driven ones.  Manual Pacing with both
pacing maps empty, and Historical Average with a missing history, a
missing historical commitment or a non-positive one, also return the
empty list, for every commitment. -/
theorem degenerate_inputs_give_empty_forecast (cr : ℝ) (cq : ℚ)
    (hcr : cr ≤ 0) (hcq : cq ≤ 0) :
    (∀ lifetime vintage : Nat, ∀ rc rd bf g : ℝ,
      forecast_takahashi_alexander cr lifetime vintage rc rd bf g = []) ∧
    (∀ lifetime vintage : Nat, ∀ dr di g : ℝ,
      forecast_driessen_lin_phalippou cr lifetime vintage dr di g = []) ∧
    (∀ lifetime vintage ip hs : Nat, ∀ ipace hpace : List ℝ, ∀ g : ℝ,
      forecast_ljungqvist_richardson cr lifetime vintage ip ipace hs hpace g = []) ∧
    (∀ lifetime vintage : Nat, ∀ strategy percentile : String, ∀ tvpi : ℚ,
      0 ≤ tvpi →
      forecast_cambridge_quantile cq lifetime vintage strategy percentile tvpi = []) ∧
    (∀ lifetime vintage ip hs : Nat, ∀ tvpi : ℚ, 0 ≤ tvpi →
      forecast_linear cq lifetime vintage ip hs tvpi = []) ∧
    (∀ vintage : Nat, ∀ cp dp : List (Nat × ℚ), ∀ tvpi : ℚ,
      (∀ p ∈ cp, 0 ≤ p.2) → (∀ p ∈ dp, 0 ≤ p.2) → 0 ≤ tvpi →
      forecast_manual cq vintage cp dp tvpi = []) ∧
    (∀ c : ℚ, ∀ vintage : Nat, ∀ tvpi : ℚ,
      forecast_manual c vintage [] [] tvpi = []) ∧
    (∀ lifetime vintage : Nat, ∀ hist : List (FcEvent ℚ), ∀ hcommit : Option ℚ,
      (∀ cf ∈ hist, 0 ≤ cf.amount) →
      forecast_historical_average cq lifetime vintage hist hcommit = []) ∧
    (∀ c : ℚ, ∀ lifetime vintage : Nat, ∀ hist : List (FcEvent ℚ),
      forecast_historical_average c lifetime vintage [] none = [] ∧
      forecast_historical_average c lifetime vintage hist none = [] ∧
      (∀ h, h ≤ 0 →
        forecast_historical_average c lifetime vintage hist (some h) = [])) := by
  refine ⟨?_, ?_, ?_, ?_, ?_, ?_, ?_, ?_, ?_⟩
  · intro lifetime vintage rc rd bf g
    exact taLoop_nil_of_nonpos cr (rc / 4) (rd / 4) _ _ bf vintage hcr (lifetime * 4) 0
  · intro lifetime vintage dr di g
    exact dlpLoop_nil_of_nonpos cr _ _ _ vintage hcr (lifetime * 4) 0
  · intro lifetime vintage ip hs ipace hpace g
    exact lrLoop_nil_of_nonpos cr _ _ hpace hs (lifetime * 4) vintage hcr (lifetime * 4) 0
  · intro lifetime vintage strategy percentile tvpi ht
    exact forecast_cambridge_quantile_nil cq lifetime vintage strategy percentile
      tvpi hcq ht
  · intro lifetime vintage ip hs tvpi ht
    exact forecast_linear_nil cq lifetime vintage ip hs tvpi hcq ht
  · intro vintage cp dp tvpi hcp hdp ht
    exact forecast_manual_nil cq vintage cp dp tvpi hcq hcp hdp ht
  · intro c vintage tvpi
    rfl
  · intro lifetime vintage hist hcommit hamt
    exact forecast_historical_average_nil cq lifetime vintage hist hcommit hcq hamt
  · intro c lifetime vintage hist
    exact forecast_historical_average_missing c lifetime vintage hist

/-- Witness for C8: concrete degenerate inputs (commitment −5) on a
sample of the conjuncts, each obtained from the theorem. -/
theorem degenerate_inputs_give_empty_forecast_witness :
    forecast_takahashi_alexander (-5) 10 2024 (1/4) (1/5) (5/2) (2/25) = [] ∧
    forecast_driessen_lin_phalippou (-5) 10 2024 (3/10) (1/4) (1/10) = [] ∧
    forecast_ljungqvist_richardson (-5) 10 2024 5 [1/4, 1/4, 1/5, 3/20, 3/20] 4
      [1/10, 3/20, 1/5, 1/4, 3/10, 7/20, 2/5] (1/10) = [] ∧
    forecast_cambridge_quantile (-5) 10 2024 "buyout" "median" (8/5) = [] ∧
    forecast_linear (-5) 10 2024 5 4 (3/2) = [] ∧
    forecast_manual (-5) 2024 [(0, 1/4)] [(3, 1/10)] (3/2) = [] ∧
    forecast_manual 1000000 2024 [] [] (3/2) = [] ∧
    forecast_historical_average (-5) 10 2024
      [⟨⟨2020, 3, 31⟩, .capital_call, 100⟩] (some 400) = [] ∧
    forecast_historical_average 1000000 10 2024
      [⟨⟨2020, 3, 31⟩, .capital_call, 100⟩] none = [] := by
  have h := degenerate_inputs_give_empty_forecast (-5) (-5)
    (by norm_num) (by norm_num)
  refine ⟨h.1 10 2024 (1/4) (1/5) (5/2) (2/25),
    h.2.1 10 2024 (3/10) (1/4) (1/10),
    h.2.2.1 10 2024 5 4 [1/4, 1/4, 1/5, 3/20, 3/20]
      [1/10, 3/20, 1/5, 1/4, 3/10, 7/20, 2/5] (1/10),
    h.2.2.2.1 10 2024 "buyout" "median" (8/5) (by norm_num),
    h.2.2.2.2.1 10 2024 5 4 (3/2) (by norm_num),
    h.2.2.2.2.2.1 2024 [(0, 1/4)] [(3, 1/10)] (3/2) ?_ ?_ (by norm_num),
    h.2.2.2.2.2.2.1 1000000 2024 (3/2),
    h.2.2.2.2.2.2.2.1 10 2024 [⟨⟨2020, 3, 31⟩, .capital_call, 100⟩]
      (some 400) ?_,
    (h.2.2.2.2.2.2.2.2 1000000 10 2024
      [⟨⟨2020, 3, 31⟩, .capital_call, 100⟩]).2.1⟩
  · intro p hp
    rcases List.mem_singleton.mp hp with rfl
    norm_num
  · intro p hp
    rcases List.mem_singleton.mp hp with rfl
    norm_num
  · intro cf hcf
    rcases List.mem_singleton.mp hcf with rfl
    norm_num

/-- Rounding to 2 decimals never adds more than half a cent. -/
theorem round2_le {α : Type} [LinearOrderedField α] [FloorRing α] (x : α) :
    round2 x ≤ x + 1/200 := by
  unfold round2
  rw [round_eq]
  rw [div_le_iff₀ (by norm_num : (0:α) < 100)]
  calc ((⌊x * 100 + 1/2⌋ : ℤ) : α) ≤ x * 100 + 1/2 := Int.floor_le _
    _ = (x + 1/200) * 100 := by ring

/-- A value strictly above the 0.01 emission threshold rounds to at
least 0.01. -/
theorem le_round2_of_threshold {α : Type} [LinearOrderedField α] [FloorRing α]
    (x : α) (h : 1/100 < x) : 1/100 ≤ round2 x := by
  unfold round2
  rw [round_eq]
  have h1 : (1 : ℤ) ≤ ⌊x * 100 + 1/2⌋ := by
    rw [Int.le_floor]
    push_cast
    nlinarith
  rw [le_div_iff₀ (by norm_num : (0:α) < 100)]
  calc (1:α)/100 * 100 = ((1 : ℤ) : α) := by norm_num
    _ ≤ _ := by exact_mod_cast h1

/-- Characterization of the events emitted in one quarter: each carries
the quarter's date and the 2-decimal rounding of a raw value strictly
above 0.01. -/
theorem mem_emitQuarter {α : Type} [LinearOrderedField α] [FloorRing α]
    {d : Ymd} {call dist : α} {e : FcEvent α} (h : e ∈ emitQuarter d call dist) :
    (1/100 < call ∧ e = ⟨d, .capital_call, round2 call⟩) ∨
    (1/100 < dist ∧ e = ⟨d, .distribution, round2 dist⟩) := by
  unfold emitQuarter at h
  rcases List.mem_append.mp h with h | h
  · left
    split at h
    · next hcond => exact ⟨hcond, List.mem_singleton.mp h⟩
    · cases h
  · right
    split at h
    · next hcond => exact ⟨hcond, List.mem_singleton.mp h⟩
    · cases h

/-- Every event of a model output has an amount that is the 2-decimal
rounding of an unrounded value strictly above 0.01 — hence at least 0.01
and an exact multiple of 1/100. -/
def WellRoundedEvent {α : Type} [LinearOrderedField α] [FloorRing α]
    (e : FcEvent α) : Prop :=
  ∃ r, 1/100 < r ∧ e.amount = round2 r ∧ 1/100 ≤ e.amount ∧
    ∃ z : ℤ, e.amount = (z : α) / 100

/-- An event emitted by the shared quarter block is well rounded. -/
theorem wellRounded_of_mem_emitQuarter {α : Type} [LinearOrderedField α]
    [FloorRing α] {d : Ymd} {call dist : α} {e : FcEvent α}
    (h : e ∈ emitQuarter d call dist) : WellRoundedEvent e := by
  rcases mem_emitQuarter h with ⟨hc, rfl⟩ | ⟨hc, rfl⟩
  · exact ⟨call, hc, rfl, le_round2_of_threshold call hc, round (call * 100), rfl⟩
  · exact ⟨dist, hc, rfl, le_round2_of_threshold dist hc, round (dist * 100), rfl⟩

/-- Every event of the Takahashi-Alexander loop comes from a quarter
emission block. -/
theorem mem_taLoop (c rc_q rd_q g_q L bf : ℝ) (v : Nat) :
    ∀ fuel i nav tc, ∀ e ∈ taLoop c rc_q rd_q g_q L bf v fuel i nav tc,
      ∃ d call dist, e ∈ emitQuarter (α := ℝ) d call dist := by
  intro fuel
  induction fuel with
  | zero => intro i nav tc e he; cases he
  | succ f ih =>
    intro i nav tc e he
    rw [taLoop] at he
    rcases List.mem_append.mp he with h | h
    · exact ⟨_, _, _, h⟩
    · exact ih _ _ _ e h

/-- Every event of the Driessen-Lin-Phalippou loop comes from a quarter
emission block. -/
theorem mem_dlpLoop (c dr_q di_q g_q : ℝ) (v : Nat) :
    ∀ fuel i nav tc, ∀ e ∈ dlpLoop c dr_q di_q g_q v fuel i nav tc,
      ∃ d call dist, e ∈ emitQuarter (α := ℝ) d call dist := by
  intro fuel
  induction fuel with
  | zero => intro i nav tc e he; cases he
  | succ f ih =>
    intro i nav tc e he
    rw [dlpLoop] at he
    rcases List.mem_append.mp he with h | h
    · exact ⟨_, _, _, h⟩
    · exact ih _ _ _ e h

/-- Every event of the Ljungqvist-Richardson loop comes from a quarter
emission block. -/
theorem mem_lrLoop (c g_q : ℝ) (ipace hpace : List ℝ) (hs n v : Nat) :
    ∀ fuel i nav tc, ∀ e ∈ lrLoop c g_q ipace hpace hs n v fuel i nav tc,
      ∃ d call dist, e ∈ emitQuarter (α := ℝ) d call dist := by
  intro fuel
  induction fuel with
  | zero => intro i nav tc e he; cases he
  | succ f ih =>
    intro i nav tc e he
    rw [lrLoop] at he
    rcases List.mem_append.mp he with h | h
    · exact ⟨_, _, _, h⟩
    · exact ih _ _ _ e h

/-- Counterexample to C9 as stated: the Linear model with commitment
0.24 and TVPI 1.0 emits quarterly calls with raw value 0.012 (> 0.01),
whose stored amount `round(0.012, 2) = 0.01` is NOT strictly greater
than 0.01. -/
theorem forecast_amount_at_threshold_counterexample :
    ∃ e ∈ forecast_linear (6/25) 10 2024 5 4 1, ¬ (1/100 < e.amount) := by
  have hround : (round ((6:ℚ)/25 / ((5 * 4 : Nat) : ℚ) * 100) : ℤ) = 1 := by
    rw [round_eq]
    norm_num
  have hr : round2 ((6:ℚ)/25 / ((5 * 4 : Nat) : ℚ)) = 1/100 := by
    unfold round2
    rw [hround]
    norm_num
  refine ⟨⟨⟨2024, 3, 31⟩, .capital_call, 1/100⟩, ?_, by norm_num⟩
  unfold forecast_linear
  apply List.mem_flatMap.mpr
  refine ⟨0, by norm_num, ?_⟩
  show (⟨⟨2024, 3, 31⟩, .capital_call, 1/100⟩ : FcEvent ℚ) ∈ emitQuarter (qdate 2024 0)
    (if (0:Nat) < 5 * 4 then (if (0:Nat) < 5 * 4 then (6:ℚ)/25 / ((5 * 4 : Nat) : ℚ) else 0) else 0)
    (if ((4:Nat):ℚ) ≤ ((0:Nat):ℚ) / 4 then
      (if 0 < ((10:ℤ) - (4:ℤ)) * 4 then (6:ℚ)/25 * 1 / ((((10:ℤ) - (4:ℤ)) * 4 : ℤ) : ℚ) else 0)
    else 0)
  rw [if_pos (by norm_num : (0:Nat) < 5 * 4), if_pos (by norm_num : (0:Nat) < 5 * 4),
    if_neg (by norm_num : ¬ (((4:Nat):ℚ) ≤ ((0:Nat) : ℚ) / 4))]
  unfold emitQuarter
  rw [if_pos (by norm_num : (1:ℚ)/100 < (6:ℚ)/25 / ((5 * 4 : Nat) : ℚ)),
    if_neg (by norm_num : ¬ ((1:ℚ)/100 < (0:ℚ)))]
  rw [hr]
  simp [qdate]

/-- Amended C9: for every one of the seven pacing models and every
input, every event in the returned list is emitted through the shared
quarter block: its amount is the 2-decimal rounding of an unrounded
value strictly greater than 0.01, hence at least 0.01 (equality is
attained, so "strictly greater than 0.01" fails for the stored amount)
and an exact multiple of 0.01. -/
theorem forecast_amounts_well_rounded :
    (∀ c : ℝ, ∀ lifetime vintage : Nat, ∀ rc rd bf g : ℝ,
      ∀ e ∈ forecast_takahashi_alexander c lifetime vintage rc rd bf g,
        WellRoundedEvent e) ∧
    (∀ c : ℝ, ∀ lifetime vintage : Nat, ∀ dr di g : ℝ,
      ∀ e ∈ forecast_driessen_lin_phalippou c lifetime vintage dr di g,
        WellRoundedEvent e) ∧
    (∀ c : ℝ, ∀ lifetime vintage ip hs : Nat, ∀ ipace hpace : List ℝ, ∀ g : ℝ,
      ∀ e ∈ forecast_ljungqvist_richardson c lifetime vintage ip ipace hs hpace g,
        WellRoundedEvent e) ∧
    (∀ c : ℚ, ∀ lifetime vintage : Nat, ∀ strategy percentile : String, ∀ tvpi : ℚ,
      ∀ e ∈ forecast_cambridge_quantile c lifetime vintage strategy percentile tvpi,
        WellRoundedEvent e) ∧
    (∀ c : ℚ, ∀ lifetime vintage ip hs : Nat, ∀ tvpi : ℚ,
      ∀ e ∈ forecast_linear c lifetime vintage ip hs tvpi, WellRoundedEvent e) ∧
    (∀ c : ℚ, ∀ vintage : Nat, ∀ cp dp : List (Nat × ℚ), ∀ tvpi : ℚ,
      ∀ e ∈ forecast_manual c vintage cp dp tvpi, WellRoundedEvent e) ∧
    (∀ c : ℚ, ∀ lifetime vintage : Nat, ∀ hist : List (FcEvent ℚ),
      ∀ hcommit : Option ℚ,
      ∀ e ∈ forecast_historical_average c lifetime vintage hist hcommit,
        WellRoundedEvent e) := by
  refine ⟨?_, ?_, ?_, ?_, ?_, ?_, ?_⟩
  · intro c lifetime vintage rc rd bf g e he
    rcases mem_taLoop _ _ _ _ _ _ _ _ _ _ _ e he with ⟨d, call, dist, hm⟩
    exact wellRounded_of_mem_emitQuarter hm
  · intro c lifetime vintage dr di g e he
    rcases mem_dlpLoop _ _ _ _ _ _ _ _ _ e he with ⟨d, call, dist, hm⟩
    exact wellRounded_of_mem_emitQuarter hm
  · intro c lifetime vintage ip hs ipace hpace g e he
    rcases mem_lrLoop _ _ _ _ _ _ _ _ _ _ _ e he with ⟨d, call, dist, hm⟩
    exact wellRounded_of_mem_emitQuarter hm
  · intro c lifetime vintage strategy percentile tvpi e he
    rcases List.mem_flatMap.mp he with ⟨i, _, hm⟩
    exact wellRounded_of_mem_emitQuarter hm
  · intro c lifetime vintage ip hs tvpi e he
    rcases List.mem_flatMap.mp he with ⟨i, _, hm⟩
    exact wellRounded_of_mem_emitQuarter hm
  · intro c vintage cp dp tvpi e he
    unfold forecast_manual at he
    split at he
    · cases he
    · rcases List.mem_flatMap.mp he with ⟨i, _, hm⟩
      exact wellRounded_of_mem_emitQuarter hm
  · intro c lifetime vintage hist hcommit e he
    unfold forecast_historical_average at he
    split at he
    · cases he
    · split at he
      · cases he
      · split at he
        · cases he
        · rcases List.mem_flatMap.mp he with ⟨i, _, hm⟩
          exact wellRounded_of_mem_emitQuarter hm

/-- Witness for the amended C9: the first event of a concrete Manual
Pacing run (commitment 400, one call year at 100%) is well rounded. -/
theorem forecast_amounts_well_rounded_witness :
    WellRoundedEvent (⟨⟨2024, 3, 31⟩, .capital_call, 100⟩ : FcEvent ℚ) := by
  apply forecast_amounts_well_rounded.2.2.2.2.2.1 400 2024 [(0, 1)] [] 1
  unfold forecast_manual
  rw [if_neg (by simp : ¬ (([(0, 1)] : List (Nat × ℚ)) = [] ∧
    ([] : List (Nat × ℚ)) = []))]
  apply List.mem_flatMap.mpr
  refine ⟨0, by decide, ?_⟩
  have hpg : pacingGet [(0, 1)] (0 / 4) = 1 := rfl
  have hpd : pacingGet ([] : List (Nat × ℚ)) (0 / 4) = 0 := rfl
  simp only [hpg, hpd]
  unfold emitQuarter
  rw [if_pos (by norm_num : (1:ℚ)/100 < 1 * 400 / 4)]
  have hz : (0:ℚ) * 400 *
      (if 0 < (([] : List (Nat × ℚ)).map Prod.snd).sum ∧
        0 < (([(0, 1)] : List (Nat × ℚ)).map Prod.snd).sum
       then (([(0, 1)] : List (Nat × ℚ)).map Prod.snd).sum * 1 /
          (([] : List (Nat × ℚ)).map Prod.snd).sum else 1) / 4 = 0 := by
    split <;> ring
  rw [hz, if_neg (by norm_num : ¬ ((1:ℚ)/100 < 0))]
  have hamt : round2 ((1:ℚ) * 400 / 4) = 100 := by
    unfold round2
    rw [show ((1:ℚ) * 400 / 4 * 100) = 10000 by ring, round_eq]
    norm_num
  rw [hamt]
  simp [qdate]

/-- The capital-call events of a forecast. -/
def callEvents {α : Type} (l : List (FcEvent α)) : List (FcEvent α) :=
  l.filter (fun e => e.type == CFKind.capital_call)

/-- The sum of all capital-call amounts of a forecast. -/
def callAmountSum (l : List (FcEvent ℝ)) : ℝ :=
  ((callEvents l).map FcEvent.amount).sum

/-- Call-amount sums are additive along concatenation. -/
theorem callAmountSum_append (l₁ l₂ : List (FcEvent ℝ)) :
    callAmountSum (l₁ ++ l₂) = callAmountSum l₁ + callAmountSum l₂ := by
  unfold callAmountSum callEvents
  rw [List.filter_append, List.map_append, List.sum_append]

/-- One emitted quarter contributes at most `call + 1/200` to the call
sum: the only call event it can contain carries `round2 call`, and
rounding adds at most half a cent. -/
theorem callAmountSum_emitQuarter (d : Ymd) (call dist : ℝ) (h : 0 ≤ call) :
    callAmountSum (emitQuarter d call dist) ≤ call + 1/200 := by
  unfold callAmountSum callEvents emitQuarter
  rw [List.filter_append]
  have hdistpart : ((if dist > 1/100 then
      [(⟨d, .distribution, round2 dist⟩ : FcEvent ℝ)] else []).filter
      (fun e => e.type == CFKind.capital_call)) = [] := by
    split <;> rfl
  rw [hdistpart, List.append_nil]
  have hr := round2_le call
  split
  · simp only [List.filter_cons, List.filter_nil]
    norm_num
    linarith
  · simp only [List.filter_nil, List.map_nil, List.sum_nil]
    linarith

/-- For the scenario parameters (`L = 10`, `bow_factor = 2.5`) the bow
weight of every quarter lies in `[0, 1]`. -/
theorem taBow_bounds (i : Nat) (hi : i < 40) :
    0 ≤ taBow ((10 : Nat) : ℝ) (5/2) i ∧ taBow ((10 : Nat) : ℝ) (5/2) i ≤ 1 := by
  unfold taBow
  have hL : ((10 : Nat) : ℝ) = 10 := by norm_num
  rw [hL]
  have ht0 : 0 < ((i : ℝ) + 1) / 4 := by positivity
  have ht10 : ((i : ℝ) + 1) / 4 ≤ 10 := by
    have : (i : ℝ) ≤ 39 := by
      exact_mod_cast Nat.le_of_lt_succ hi
    linarith
  have hbraw0 : 0 ≤ (((i : ℝ) + 1) / 4) * (10 - ((i : ℝ) + 1) / 4) / (10 / 2) ^ 2 := by
    apply div_nonneg _ (by norm_num)
    nlinarith
  have hbraw1 : (((i : ℝ) + 1) / 4) * (10 - ((i : ℝ) + 1) / 4) / (10 / 2) ^ 2 ≤ 1 := by
    rw [div_le_one (by norm_num : (0:ℝ) < ((10:ℝ) / 2) ^ 2)]
    nlinarith [sq_nonneg (((i : ℝ) + 1) / 4 - 5)]
  split
  · exact ⟨Real.rpow_nonneg hbraw0 _, Real.rpow_le_one hbraw0 hbraw1 (by norm_num)⟩
  · exact ⟨le_refl 0, by norm_num⟩

/-- Every date of the Takahashi-Alexander output lies on the quarter-end
grid. -/
theorem taLoop_dates (c rc_q rd_q g_q L bf : ℝ) (v n : Nat) :
    ∀ fuel i nav tc, i + fuel ≤ n →
      ∀ e ∈ taLoop c rc_q rd_q g_q L bf v fuel i nav tc,
        e.date ∈ quarter_end_dates v n := by
  intro fuel
  induction fuel with
  | zero => intro i nav tc _ e he; cases he
  | succ f ih =>
    intro i nav tc hin e he
    rw [taLoop] at he
    rcases List.mem_append.mp he with h | h
    · have hd : e.date = qdate v i := by
        rcases mem_emitQuarter h with ⟨_, rfl⟩ | ⟨_, rfl⟩ <;> rfl
      rw [hd]
      exact List.mem_map.mpr ⟨i, List.mem_range.mpr (by omega), rfl⟩
    · exact ih (i + 1) _ _ (by omega) e h

/-- The induction core of the "total called never exceeds the
commitment" bound: starting from `total_called = tc`, the `fuel`
remaining quarters emit call amounts summing to at most
`(c − tc)·(1 − (15/16)^fuel) + fuel/200` — each quarter calls at most
1/16 of the remaining unfunded commitment (`rc_q ≤ 1/16`, bow ≤ 1) and
rounding adds at most half a cent per quarter. -/
theorem taLoop_callSum_bound (c rc_q rd_q g_q L bf : ℝ) (v : Nat)
    (hrc : rc_q ≤ 1/16)
    (hbow : ∀ j, j < 40 → 0 ≤ taBow L bf j ∧ taBow L bf j ≤ 1) :
    ∀ fuel i nav tc, i + fuel ≤ 40 → 0 ≤ tc → tc ≤ c →
    callAmountSum (taLoop c rc_q rd_q g_q L bf v fuel i nav tc) ≤
      (c - tc) * (1 - (15/16)^fuel) + (fuel : ℝ) * (1/200) := by
  intro fuel
  induction fuel with
  | zero =>
    intro i nav tc _ _ htc
    show callAmountSum [] ≤ _
    simp only [callAmountSum, callEvents, List.filter_nil, List.map_nil,
      List.sum_nil, pow_zero]
    norm_num
  | succ f ih =>
    intro i nav tc hif htc0 htcc
    have hi40 : i < 40 := by omega
    obtain ⟨hb0, hb1⟩ := hbow i hi40
    have hu : (0:ℝ) ≤ c - tc := by linarith
    simp only [taLoop]
    rw [callAmountSum_append]
    set call := max 0 (min (rc_q * taBow L bf i * (c - tc)) (c - tc)) with hcdef
    have hcall0 : 0 ≤ call := le_max_left 0 _
    have hc16 : call ≤ (c - tc) * (1/16) := by
      apply max_le
      · positivity
      · calc min (rc_q * taBow L bf i * (c - tc)) (c - tc) ≤
            rc_q * taBow L bf i * (c - tc) := min_le_left _ _
          _ ≤ (1/16) * 1 * (c - tc) :=
            mul_le_mul_of_nonneg_right (mul_le_mul hrc hb1 hb0 (by norm_num)) hu
          _ = (c - tc) * (1/16) := by ring
    have hcu : call ≤ c - tc :=
      max_le hu (min_le_right _ _)
    have hemit := callAmountSum_emitQuarter (qdate v i) call
      (max 0 (min (rd_q * taBow L bf i * ((nav + call) * (1 + g_q)))
        ((nav + call) * (1 + g_q)))) hcall0
    have hrec := ih (i + 1) (((nav + call) * (1 + g_q)) -
        max 0 (min (rd_q * taBow L bf i * ((nav + call) * (1 + g_q)))
          ((nav + call) * (1 + g_q))))
      (tc + call) (by omega) (by linarith) (by linarith)
    have hpowpos : (0:ℝ) < (15/16) ^ f := pow_pos (by norm_num) f
    have hkey : call * (15/16) ^ f ≤ ((c - tc) * (1/16)) * (15/16) ^ f :=
      mul_le_mul_of_nonneg_right hc16 (le_of_lt hpowpos)
    have hpow : ((15:ℝ)/16) ^ (f + 1) = (15/16) ^ f * (15/16) := pow_succ _ _
    push_cast
    rw [hpow]
    nlinarith [hemit, hrec, hkey]

/-- The head of the call-event list of a list starting with a capital
call. -/
theorem callEvents_head (a : FcEvent ℝ) (l : List (FcEvent ℝ))
    (h : a.type = .capital_call) : (callEvents (a :: l)).head? = some a := by
  unfold callEvents
  rw [List.filter_cons_of_pos (by simp [h])]
  rfl

/-- The first-quarter bow weight of the scenario is at least
`(39/400)³` (using that `x^2.5` is antitone in the exponent on
`(0, 1]`). -/
theorem taBow_zero_lower :
    (59319 : ℝ) / 64000000 ≤ taBow ((10 : Nat) : ℝ) (5/2) 0 := by
  unfold taBow
  have h1 : ((((0 : Nat) : ℝ) + 1) / 4) * (((10 : Nat) : ℝ) - (((0 : Nat) : ℝ) + 1) / 4) /
      (((10 : Nat) : ℝ) / 2) ^ 2 = 39/400 := by
    norm_num
  rw [h1, if_pos (by norm_num : (0:ℝ) < 39/400)]
  have h2 : ((39:ℝ)/400) ^ ((3:ℕ) : ℝ) ≤ (39/400 : ℝ) ^ ((5:ℝ)/2) := by
    apply Real.rpow_le_rpow_of_exponent_ge (by norm_num) (by norm_num)
    norm_num
  rw [Real.rpow_natCast] at h2
  calc (59319 : ℝ) / 64000000 = (39/400 : ℝ) ^ (3:ℕ) := by norm_num
    _ ≤ (39/400 : ℝ) ^ ((5:ℝ)/2) := h2

/-- The first quarter of the scenario emits a capital call: its raw
value lies strictly between 0.01 and the full commitment. -/
theorem ta_first_call_raw_bounds :
    1/100 < max 0 (min (1/4/4 * taBow ((10 : Nat) : ℝ) (5/2) 0 * ((1000000:ℝ) - 0))
      ((1000000:ℝ) - 0)) := by
  have hb1 : taBow ((10 : Nat) : ℝ) (5/2) 0 ≤ 1 := (taBow_bounds 0 (by norm_num)).2
  have hb0 := taBow_zero_lower
  have hmin : min (1/4/4 * taBow ((10 : Nat) : ℝ) (5/2) 0 * ((1000000:ℝ) - 0))
      ((1000000:ℝ) - 0) = 1/4/4 * taBow ((10 : Nat) : ℝ) (5/2) 0 * ((1000000:ℝ) - 0) := by
    apply min_eq_left
    nlinarith
  rw [hmin]
  have : 1/4/4 * ((59319 : ℝ) / 64000000) * 1000000 ≤
      1/4/4 * taBow ((10 : Nat) : ℝ) (5/2) 0 * ((1000000:ℝ) - 0) := by
    nlinarith
  have hgt : (1:ℝ)/100 < 1/4/4 * ((59319 : ℝ) / 64000000) * 1000000 := by norm_num
  calc (1:ℝ)/100 < 1/4/4 * ((59319 : ℝ) / 64000000) * 1000000 := hgt
    _ ≤ 1/4/4 * taBow ((10 : Nat) : ℝ) (5/2) 0 * ((1000000:ℝ) - 0) := this
    _ ≤ max 0 _ := le_max_right _ _

/-- C7: the Takahashi-Alexander scenario (commitment 1,000,000,
lifetime 10, rc 0.25, rd 0.20, bow 2.5, growth 0.08, vintage 2024)
runs over a 40-slot quarter grid spanning 2024-03-31 … 2033-12-31 with
every event on the grid; the sum of all emitted capital-call amounts
never exceeds the commitment 1,000,000; and the first capital-call event
falls on 2024-03-31 (within year 1) with a strictly positive amount. -/
theorem takahashi_alexander_scenario :
    (quarter_end_dates 2024 40).length = 40 ∧
    (quarter_end_dates 2024 40).head? = some ⟨2024, 3, 31⟩ ∧
    (quarter_end_dates 2024 40).getLast? = some ⟨2033, 12, 31⟩ ∧
    List.Forall (fun e => e.date ∈ quarter_end_dates 2024 40)
      (forecast_takahashi_alexander 1000000 10 2024 (1/4) (1/5) (5/2) (2/25)) ∧
    callAmountSum (forecast_takahashi_alexander 1000000 10 2024 (1/4) (1/5) (5/2)
      (2/25)) ≤ 1000000 ∧
    (∃ e, (callEvents (forecast_takahashi_alexander 1000000 10 2024 (1/4) (1/5)
        (5/2) (2/25))).head? = some e ∧
      e.date = ⟨2024, 3, 31⟩ ∧ 0 < e.amount) := by
  refine ⟨by decide, by decide, by decide, ?_, ?_, ?_⟩
  · rw [List.forall_iff_forall_mem]
    intro e he
    exact taLoop_dates 1000000 (1/4/4) (1/5/4) ((1 + 2/25) ^ ((1:ℝ)/4) - 1)
      ((10 : Nat) : ℝ) (5/2) 2024 40 (10 * 4) 0 0 0 (by norm_num) e he
  · have hb := taLoop_callSum_bound 1000000 (1/4/4) (1/5/4)
      ((1 + 2/25) ^ ((1:ℝ)/4) - 1) ((10 : Nat) : ℝ) (5/2) 2024
      (by norm_num) taBow_bounds (10 * 4) 0 0 0 (by norm_num) (le_refl 0)
      (by norm_num)
    refine le_trans hb ?_
    norm_num
  · have hgt := ta_first_call_raw_bounds
    have hstep : forecast_takahashi_alexander 1000000 10 2024 (1/4) (1/5) (5/2)
        (2/25) =
        emitQuarter (qdate 2024 0)
          (max 0 (min (1/4/4 * taBow ((10 : Nat) : ℝ) (5/2) 0 * ((1000000:ℝ) - 0))
            ((1000000:ℝ) - 0)))
          (max 0 (min (1/5/4 * taBow ((10 : Nat) : ℝ) (5/2) 0 *
              ((0 + max 0 (min (1/4/4 * taBow ((10 : Nat) : ℝ) (5/2) 0 *
                ((1000000:ℝ) - 0)) ((1000000:ℝ) - 0))) *
               (1 + ((1 + 2/25) ^ ((1:ℝ)/4) - 1))))
            ((0 + max 0 (min (1/4/4 * taBow ((10 : Nat) : ℝ) (5/2) 0 *
                ((1000000:ℝ) - 0)) ((1000000:ℝ) - 0))) *
             (1 + ((1 + 2/25) ^ ((1:ℝ)/4) - 1))))) ++
        taLoop 1000000 (1/4/4) (1/5/4) ((1 + 2/25) ^ ((1:ℝ)/4) - 1)
          ((10 : Nat) : ℝ) (5/2) 2024 39 1
          (((0 + max 0 (min (1/4/4 * taBow ((10 : Nat) : ℝ) (5/2) 0 *
              ((1000000:ℝ) - 0)) ((1000000:ℝ) - 0))) *
            (1 + ((1 + 2/25) ^ ((1:ℝ)/4) - 1))) -
           max 0 (min (1/5/4 * taBow ((10 : Nat) : ℝ) (5/2) 0 *
              ((0 + max 0 (min (1/4/4 * taBow ((10 : Nat) : ℝ) (5/2) 0 *
                ((1000000:ℝ) - 0)) ((1000000:ℝ) - 0))) *
               (1 + ((1 + 2/25) ^ ((1:ℝ)/4) - 1))))
            ((0 + max 0 (min (1/4/4 * taBow ((10 : Nat) : ℝ) (5/2) 0 *
                ((1000000:ℝ) - 0)) ((1000000:ℝ) - 0))) *
             (1 + ((1 + 2/25) ^ ((1:ℝ)/4) - 1)))))
          (0 + max 0 (min (1/4/4 * taBow ((10 : Nat) : ℝ) (5/2) 0 *
            ((1000000:ℝ) - 0)) ((1000000:ℝ) - 0))) := rfl
    rw [hstep]
    unfold emitQuarter
    rw [if_pos hgt]
    rw [List.singleton_append, List.cons_append]
    refine ⟨⟨qdate 2024 0, .capital_call,
      round2 (max 0 (min (1/4/4 * taBow ((10 : Nat) : ℝ) (5/2) 0 *
        ((1000000:ℝ) - 0)) ((1000000:ℝ) - 0)))⟩,
      callEvents_head _ _ rfl, by decide, ?_⟩
    exact lt_of_lt_of_le (by norm_num : (0:ℝ) < 1/100)
      (le_round2_of_threshold _ hgt)

end PEFund
